import Mathlib

/-!
# Verification of the team-balancing engine of `trueskill-tracker.py`

This file shallowly embeds the `TeamBalancer` class of the repository's
single source file and proves the spec's claims about it.

Modelling conventions:
* Python floats are modelled as exact rationals (`ℚ`); the sentinel
  `float('inf')` used by `calculate_variance` and the best-variance
  accumulator is modelled by `⊤ : WithTop ℚ`.
* The calls to `random.shuffle` are modelled by an oracle
  `sh : Nat → List Player → List Player`: the n-th shuffle performed by an
  operation is `sh n`.  The predicate `IsShuffle sh` states that every
  oracle answer is a permutation of its input, which is the only property
  `random.shuffle` guarantees.  A shuffle-call counter is threaded through
  the definitions so that distinct calls may receive unrelated answers.
* Python's stable `sorted(..., key=..., reverse=True)` is modelled by
  `List.mergeSort`, which is the same (stable) sorting function.
* Loops become structural recursions or folds; `while` loops with an
  iteration budget become fuel recursion with the budget as fuel.
-/

/-- A player record, as produced by the database layer: identity, display
name, region tag and the two TrueSkill rating parameters. -/
structure Player where
  user_id : Nat
  username : String
  region : String
  mu : ℚ
  sigma : ℚ
deriving DecidableEq, Repr, Inhabited

/-- A shuffle oracle: the result of the n-th `random.shuffle` call. -/
abbrev Shuffle := Nat → List Player → List Player

/-- The oracle only ever permutes the list it is given (the contract of
`random.shuffle`). -/
def IsShuffle (sh : Shuffle) : Prop := ∀ c l, (sh c l).Perm l

/-- The degenerate oracle that never reorders anything: one concrete
possible outcome of the random draws. -/
def idShuffle : Shuffle := fun _ l => l

namespace TeamBalancer

/-- `get_player_skill`: conservative skill estimate `mu - 3 * sigma`. -/
def get_player_skill (p : Player) : ℚ := p.mu - 3 * p.sigma

/-- `calculate_team_average`: average skill of a team, `0.0` for an empty
team. -/
def calculate_team_average (team : List Player) : ℚ :=
  if team.isEmpty then 0
  else (team.map get_player_skill).sum / (team.length : ℚ)

/-- `calculate_variance`: population variance of the per-team averages,
`float('inf')` (here `⊤`) when there are no teams. -/
def calculate_variance (teams : List (List Player)) : WithTop ℚ :=
  if teams.isEmpty then ⊤
  else
    let averages := teams.map calculate_team_average
    let mean_avg := averages.sum / (averages.length : ℚ)
    (((averages.map (fun avg => (avg - mean_avg) ^ 2)).sum / (averages.length : ℚ) : ℚ) : WithTop ℚ)

/-- Python's `sorted(players, key=TeamBalancer.get_player_skill, reverse=True)`:
a stable sort, descending by conservative skill. -/
def sortBySkill (players : List Player) : List Player :=
  players.mergeSort (fun a b => decide (get_player_skill b ≤ get_player_skill a))

/-- One tier-shuffling pass
(`for i in range(0, len(l), tier_size): random.shuffle(l[i:i+tier_size])`):
cut the list into consecutive tiers of `tier_size` players and shuffle each
tier.  `c` is the shuffle-call counter; one oracle call is consumed per tier.
The `fuel` argument only drives the recursion; `fuel = l.length` always
suffices because every tier is non-empty (call sites have `tier_size ≥ 1`,
and `max 1` keeps the recursion well-defined for `tier_size = 0`, which the
source never produces). -/
def chunkShuffleAux (sh : Shuffle) (tier_size : Nat) : Nat → Nat → List Player → List Player × Nat
  | _, c, [] => ([], c)
  | 0, c, l => (l, c)
  | fuel + 1, c, l =>
    let tier := sh c (l.take (max 1 tier_size))
    let (rest, c') := chunkShuffleAux sh tier_size fuel (c + 1) (l.drop (max 1 tier_size))
    (tier ++ rest, c')

/-- Tier shuffle, entry point. -/
def chunkShuffle (sh : Shuffle) (tier_size c : Nat) (l : List Player) : List Player × Nat :=
  chunkShuffleAux sh tier_size l.length c l

/-- The snake-draft team index for the `i`-th player
(`team_idx = i % num_teams`, reversed on odd rounds). -/
def snakeIdx (num_teams i : Nat) : Nat :=
  let team_idx := i % num_teams
  if (i / num_teams) % 2 = 1 then num_teams - 1 - team_idx else team_idx

/-- Append player `p` to team `team_idx` unless that team already has 4
players (`if len(teams[team_idx]) < 4: teams[team_idx].append(player)`). -/
def capInsert (ts : List (List Player)) (team_idx : Nat) (p : Player) : List (List Player) :=
  if (ts.getD team_idx []).length < 4 then ts.set team_idx ((ts.getD team_idx []) ++ [p]) else ts

/-- Distribute the players of `l` over the teams `ts`, sending the player at
running position `i` to team `idxF i`, capped at 4 players per team.  With
`idxF := snakeIdx k` this is the snake draft of `generate_optimal_teams`;
with `idxF := (· % k)` it is the round-robin of `generate_random_teams`. -/
def distribPlayers (idxF : Nat → Nat) : List (List Player) → Nat → List Player → List (List Player)
  | ts, _, [] => ts
  | ts, i, p :: rest => distribPlayers idxF (capInsert ts (idxF i) p) (i + 1) rest

/-- Region-mode seeding
(`for i in range(min(num_teams, len(region_list))): teams[i].append(region_list[i])`):
give each of the first `min num_teams rl.length` fresh teams one region
player. -/
def seedTeams (num_teams : Nat) (rl : List Player) : List (List Player) :=
  (List.range (min num_teams rl.length)).foldl
    (fun ts i => ts.set i ((ts.getD i []) ++ [rl.getD i default]))
    (List.replicate num_teams ([] : List Player))

/-- The mutable state of one local-improvement pass: the teams, the running
`current_variance`, and the `improved` flag. -/
structure SweepState where
  teams : List (List Player)
  current_variance : WithTop ℚ
  improved : Bool
deriving DecidableEq

/-- `teams[i][p1_idx], teams[j][p2_idx] = teams[j][p2_idx], teams[i][p1_idx]`:
exchange the members at positions `p` of team `i` and `q` of team `j`. -/
def swapPlayers (ts : List (List Player)) (i j p q : Nat) : List (List Player) :=
  let ti := ts.getD i []
  let tj := ts.getD j []
  (ts.set i (ti.set p (tj.getD q default))).set j (tj.set q (ti.getD p default))

/-- One tentative swap: perform the swap, recompute the variance, keep the
swap iff it strictly reduces `current_variance`, otherwise swap back. -/
def trySwap (st : SweepState) (i j p q : Nat) : SweepState :=
  let teams1 := swapPlayers st.teams i j p q
  let new_variance := calculate_variance teams1
  if new_variance < st.current_variance then
    { teams := teams1, current_variance := new_variance, improved := true }
  else
    { teams := swapPlayers teams1 i j p q
      current_variance := st.current_variance
      improved := st.improved }

/-- All member-pair swaps for one team pair `(i, j)` in
`generate_optimal_teams` (skipped when either team is empty). -/
def sweepPair (st : SweepState) (i j : Nat) : SweepState :=
  if (st.teams.getD i []).isEmpty || (st.teams.getD j []).isEmpty then st
  else
    (List.range (st.teams.getD i []).length).foldl
      (fun st1 p =>
        (List.range (st1.teams.getD j []).length).foldl
          (fun st2 q => trySwap st2 i j p q) st1)
      st

/-- All member-pair swaps for one team pair `(i, j)` in
`generate_optimal_teams_with_region`: skipped when either team only has its
reserved region player, and the member indices start at 1 so the region
player at index 0 is never offered for a swap. -/
def sweepPairR (st : SweepState) (i j : Nat) : SweepState :=
  if (st.teams.getD i []).length ≤ 1 || (st.teams.getD j []).length ≤ 1 then st
  else
    (List.range' 1 ((st.teams.getD i []).length - 1)).foldl
      (fun st1 p =>
        (List.range' 1 ((st1.teams.getD j []).length - 1)).foldl
          (fun st2 q => trySwap st2 i j p q) st1)
      st

/-- One full pass of the local-improvement loop: recompute
`current_variance`, reset `improved`, and scan all team pairs `i < j` with
the given pair handler.  Returns the new teams and the `improved` flag. -/
def sweepWith (pairFn : SweepState → Nat → Nat → SweepState) (num_teams : Nat)
    (teams : List (List Player)) : List (List Player) × Bool :=
  let st := (List.range num_teams).foldl
    (fun st i =>
      (List.range' (i + 1) (num_teams - (i + 1))).foldl (fun st j => pairFn st i j) st)
    { teams := teams, current_variance := calculate_variance teams, improved := false }
  (st.teams, st.improved)

/-- `while improved and iterations < max_local_iterations:` — repeat passes
until one yields no accepted swap or the budget runs out. -/
def localOptimizeWith (pairFn : SweepState → Nat → Nat → SweepState) (num_teams : Nat) :
    Nat → List (List Player) → List (List Player)
  | 0, teams => teams
  | fuel + 1, teams =>
    let (teams', improved) := sweepWith pairFn num_teams teams
    if improved then localOptimizeWith pairFn num_teams fuel teams' else teams'

/-- The local-improvement loop of `generate_optimal_teams`. -/
def localOptimize (num_teams fuel : Nat) (teams : List (List Player)) : List (List Player) :=
  localOptimizeWith sweepPair num_teams fuel teams

/-- The local-improvement loop of `generate_optimal_teams_with_region`. -/
def localOptimizeR (num_teams fuel : Nat) (teams : List (List Player)) : List (List Player) :=
  localOptimizeWith sweepPairR num_teams fuel teams

/-- The guarded tier-shuffle block that `generate_optimal_teams_with_region`
runs twice per attempt: when `cond` holds, shuffle within tiers of size
`tsA` (aggressive mode) or `tsB` (standard mode), else leave the list
untouched. -/
def tierShuffleIf (sh : Shuffle) (cond use_randomization : Bool) (tsA tsB c : Nat)
    (l : List Player) : List Player × Nat :=
  if cond then
    if use_randomization then chunkShuffle sh tsA c l
    else chunkShuffle sh tsB c l
  else (l, c)

/-- The body of one attempt of `generate_optimal_teams`: tier-shuffle the
sorted roster (except on the deterministic first attempt), snake-draft it
into `num_teams` teams, then locally optimize.  `nplayers = len(players)`
drives the iteration budget. -/
def attemptBody (sh : Shuffle) (players_sorted : List Player) (num_teams nplayers : Nat)
    (use_randomization : Bool) (attempt c : Nat) : List (List Player) × Nat :=
  let pshuf :=
    tierShuffleIf sh (decide (attempt > 0) || use_randomization) use_randomization
      (max 2 (players_sorted.length / 3)) (max 1 (players_sorted.length / 4)) c players_sorted
  let player_list := pshuf.1
  let c1 := pshuf.2
  let teams0 := distribPlayers (snakeIdx num_teams) (List.replicate num_teams []) 0 player_list
  let max_local_iterations := if nplayers ≤ 8 then 200 else 100
  (localOptimize num_teams max_local_iterations teams0, c1)

/-- Best-of-all-attempts accumulation
(`if final_variance < best_variance: best_variance, best_teams = ...`):
state is `((best_teams, best_variance), shuffle counter)`. -/
def bestStep (body : Nat → Nat → List (List Player) × Nat)
    (st : (Option (List (List Player)) × WithTop ℚ) × Nat) (attempt : Nat) :
    (Option (List (List Player)) × WithTop ℚ) × Nat :=
  let (teams, c1) := body attempt st.2
  let final_variance := calculate_variance teams
  if final_variance < st.1.2 then ((some teams, final_variance), c1) else (st.1, c1)

/-- `TeamBalancer.generate_optimal_teams`. -/
def generate_optimal_teams (sh : Shuffle) (players : List Player) (num_teams : Nat)
    (max_iterations : Nat := 10000) (use_randomization : Bool := false) :
    List (List Player) :=
  if players.length < 2 || num_teams < 1 then []
  else
    let players_sorted := sortBySkill players
    let attempts := min max_iterations (if players.length ≤ 12 then 1000 else 500)
    let result := (List.range attempts).foldl
      (bestStep (attemptBody sh players_sorted num_teams players.length use_randomization))
      ((none, ⊤), 0)
    match result.1.1 with
    | some best_teams => best_teams.filter (fun team => !team.isEmpty)
    | none => []

/-- `TeamBalancer.calculate_optimal_teams`: bucket the player count into a
team count, maximizing team size toward 4. -/
def calculate_optimal_teams (total_players : Nat) : Nat :=
  if total_players ≤ 3 then 1
  else if total_players ≤ 8 then 2
  else if total_players ≤ 12 then 3
  else if total_players ≤ 16 then 4
  else 5

/-- `while final_teams > 1 and (total_players // final_teams) < 2:
final_teams -= 1`. -/
def reduceTeams (total_players : Nat) : Nat → Nat
  | 0 => 0
  | 1 => 1
  | f + 2 => if total_players / (f + 2) < 2 then reduceTeams total_players (f + 1) else f + 2

/-- `while final_teams < 5 and (total_players / final_teams) > 4:
final_teams += 1` (true division, hence the comparison in `ℚ`).  Fueled
recursion; `gas = 5 - f` makes the fuel exact. -/
def growTeamsAux (total_players : Nat) : Nat → Nat → Nat
  | 0, f => f
  | gas + 1, f =>
    if f < 5 ∧ (4 : ℚ) < (total_players : ℚ) / (f : ℚ) then
      growTeamsAux total_players gas (f + 1)
    else f

/-- The cap-at-4 adjustment loop of `balance_teams`. -/
def growTeams (total_players f : Nat) : Nat := growTeamsAux total_players (5 - f) f

/-- The team count `balance_teams` actually uses (the `num_teams` argument
is ignored by the source): bucketing, cap at 5, then the two adjustment
loops. -/
def plannedTeams (total_players : Nat) : Nat :=
  growTeams total_players (reduceTeams total_players (min 5 (calculate_optimal_teams total_players)))

/-- `TeamBalancer.generate_random_teams`: full shuffle then round-robin with
the 4-player cap. -/
def generate_random_teams (sh : Shuffle) (players : List Player) (num_teams : Nat) :
    List (List Player) :=
  if players.length < 2 || num_teams < 1 then []
  else
    let shuffled_players := sh 0 players
    let teams := distribPlayers (fun i => i % num_teams)
      (List.replicate num_teams []) 0 shuffled_players
    teams.filter (fun team => !team.isEmpty)

/-- `TeamBalancer.balance_teams`.  Its `num_teams` parameter is accepted and
ignored, exactly as in the source. -/
def balance_teams (sh : Shuffle) (players : List Player) (num_teams : Nat := 2)
    (use_randomization : Bool := false) : List (List Player) :=
  if players.length < 2 then []
  else
    let total_players := players.length
    let final_teams := plannedTeams total_players
    if final_teams < 1 then []
    else if use_randomization then generate_random_teams sh players final_teams
    else generate_optimal_teams sh players final_teams

/-- `str.lower()`, written on the underlying character list so that it
evaluates on concrete strings. -/
def strLower (s : String) : String := ⟨s.data.map Char.toLower⟩

/-- `p.get('region', '').lower() == required_region.lower()`. -/
def regionMatches (p : Player) (required_region : String) : Bool :=
  strLower p.region == strLower required_region

/-- The body of one attempt of `generate_optimal_teams_with_region`:
tier-shuffle the sorted region players, seed one per team, tier-shuffle the
remaining pool, snake-draft it, then locally optimize (region seats
excluded from swaps). -/
def attemptBodyR (sh : Shuffle) (region_sorted other_sorted : List Player) (num_teams : Nat)
    (use_randomization : Bool) (attempt c : Nat) : List (List Player) × Nat :=
  let rshuf :=
    tierShuffleIf sh (decide (attempt > 0) || use_randomization) use_randomization
      (max 2 (region_sorted.length / 2)) (max 1 (region_sorted.length / 3)) c region_sorted
  let region_list := rshuf.1
  let c1 := rshuf.2
  let teams0 := seedTeams num_teams region_list
  let remaining_region := region_list.drop num_teams
  let all_remaining0 := remaining_region ++ other_sorted
  let ashuf :=
    tierShuffleIf sh ((decide (attempt > 0) && !all_remaining0.isEmpty) || use_randomization)
      use_randomization (max 2 (all_remaining0.length / 3)) (max 1 (all_remaining0.length / 4))
      c1 all_remaining0
  let all_remaining := ashuf.1
  let c2 := ashuf.2
  let teams1 := distribPlayers (snakeIdx num_teams) teams0 0 all_remaining
  let max_local_iterations := if all_remaining.length ≤ 8 then 150 else 75
  (localOptimizeR num_teams max_local_iterations teams1, c2)

/-- `TeamBalancer.generate_optimal_teams_with_region`. -/
def generate_optimal_teams_with_region (sh : Shuffle) (region_players other_players : List Player)
    (num_teams : Nat) (use_randomization : Bool := false) : List (List Player) :=
  if num_teams < 1 || region_players.isEmpty then []
  else
    let region_sorted := sortBySkill region_players
    let other_sorted := sortBySkill other_players
    let attempts := min 500 (if (region_players ++ other_players).length > 12 then 100 else 200)
    let result := (List.range attempts).foldl
      (bestStep (attemptBodyR sh region_sorted other_sorted num_teams use_randomization))
      ((none, ⊤), 0)
    match result.1.1 with
    | some best_teams => best_teams.filter (fun team => !team.isEmpty)
    | none => []

/-- `TeamBalancer.generate_random_teams_with_region`: shuffle the region
players, seed one per team, shuffle the remaining pool, round-robin it. -/
def generate_random_teams_with_region (sh : Shuffle) (region_players other_players : List Player)
    (num_teams : Nat) : List (List Player) :=
  if num_teams < 1 || region_players.isEmpty then []
  else
    let shuffled_region := sh 0 region_players
    let teams0 := seedTeams num_teams shuffled_region
    let remaining_region := shuffled_region.drop num_teams
    let all_remaining := sh 1 (remaining_region ++ other_players)
    let teams := distribPlayers (fun i => i % num_teams) teams0 0 all_remaining
    teams.filter (fun team => !team.isEmpty)

/-- The team count `balance_teams_with_region` uses: bucketing capped by the
region-player count and 5, then the per-team-floor reduction loop. -/
def regionTeamCount (total_players region_count : Nat) : Nat :=
  let max_possible_teams := min region_count 5
  let optimal_teams :=
    if total_players ≤ 4 then (if total_players ≥ 2 then min 2 max_possible_teams else 1)
    else if total_players ≤ 8 then min 2 max_possible_teams
    else if total_players ≤ 12 then min 3 max_possible_teams
    else if total_players ≤ 16 then min 4 max_possible_teams
    else min 5 max_possible_teams
  reduceTeams total_players (min optimal_teams region_count)

/-- `TeamBalancer.balance_teams_with_region`. -/
def balance_teams_with_region (sh : Shuffle) (players : List Player) (required_region : String)
    (use_randomization : Bool := false) : List (List Player) :=
  if players.length < 2 then []
  else
    let region_players := players.filter (fun p => regionMatches p required_region)
    let other_players := players.filter (fun p => !(regionMatches p required_region))
    if region_players.isEmpty then []
    else
      let final_teams := regionTeamCount players.length region_players.length
      if final_teams < 1 then []
      else if use_randomization then
        generate_random_teams_with_region sh region_players other_players final_teams
      else
        generate_optimal_teams_with_region sh region_players other_players final_teams

/-- Number of indices `j < i` that the draft order `F` sends to team `t`. -/
def cntF (F : Nat → Nat) (t i : Nat) : Nat :=
  (List.range i).countP (fun j => F j == t)

/-- A draft order over `k` teams: indices stay below `k`, and within each
round (a block of `k` consecutive indices) every team is hit exactly once. -/
structure RoundIdx (F : Nat → Nat) (k : Nat) : Prop where
  lt : ∀ j, F j < k
  inj : ∀ q a b, a < k → b < k → F (q * k + a) = F (q * k + b) → a = b
  surj : ∀ q t, t < k → ∃ a, a < k ∧ F (q * k + a) = t

/-- Invariant relation preserved by the swap search: same number of teams,
same team sizes slot by slot, and the same players overall (as a multiset). -/
def TeamsRel (T0 T1 : List (List Player)) : Prop :=
  T1.length = T0.length ∧
  (∀ t, (T1.getD t []).length = (T0.getD t []).length) ∧
  ((T1.flatten : Multiset Player) = (T0.flatten : Multiset Player))

/-- `TeamsRel` plus preservation of each team's first member (the reserved
region player in region mode). -/
def TeamsRelR (T0 T1 : List (List Player)) : Prop :=
  TeamsRel T0 T1 ∧ ∀ t, (T1.getD t []).head? = (T0.getD t []).head?

/-- A numbered player with exact skill `n` (σ = 0), used for concrete
test rosters. -/
def mkPlayer (n : Nat) : Player :=
  { user_id := n, username := "u", region := "NA", mu := (n : ℚ), sigma := 0 }

/-- A 21-player roster: one more player than the 5-team, 4-player cap of
`balance_teams` can seat. -/
def roster21 : List Player := (List.range 21).map mkPlayer

/-- Two players with opposite skills, used to exhibit the effect of
empty-team removal on the reported variance. -/
def pHigh : Player := { user_id := 0, username := "a", region := "NA", mu := 10, sigma := 0 }

/-- See `pHigh`. -/
def pLow : Player := { user_id := 1, username := "b", region := "EU", mu := -10, sigma := 0 }

end TeamBalancer

namespace TeamBalancer

/-! ## Generic list, fold and multiset lemmas -/

theorem foldl_preserve {σ α : Type*} (P : σ → Prop) (f : σ → α → σ) :
    ∀ (l : List α) (s : σ), P s → (∀ s a, a ∈ l → P s → P (f s a)) → P (l.foldl f s) := by
  intro l
  induction l with
  | nil => intro s h0 _; exact h0
  | cons a l ih =>
    intro s h0 hf
    exact ih (f s a) (hf s a (List.mem_cons_self a l) h0)
      (fun s b hb hs => hf s b (List.mem_cons_of_mem a hb) hs)

theorem getD_of_le {α : Type*} (l : List α) {i : Nat} (h : l.length ≤ i) (d : α) :
    l.getD i d = d := by
  simp [List.getElem?_eq_none h]

theorem lt_length_of_getD_ne {l : List (List Player)} {i : Nat}
    (h : l.getD i [] ≠ []) : i < l.length := by
  by_contra hc
  exact h (getD_of_le l (Nat.le_of_not_lt hc) [])

theorem getD_set_self {α : Type*} (l : List α) {i : Nat} (h : i < l.length) (a d : α) :
    (l.set i a).getD i d = a := by
  simp [List.getElem?_set_self (by simpa using h)]

theorem getD_set_ne {α : Type*} (l : List α) {i j : Nat} (h : i ≠ j) (a d : α) :
    (l.set i a).getD j d = l.getD j d := by
  simp [List.getElem?_set_ne h]

theorem set_getD_self {α : Type*} (l : List α) {i : Nat} (h : i < l.length) (d : α) :
    l.set i (l.getD i d) = l := by
  apply List.ext_getElem?
  intro n
  by_cases hn : n = i
  · subst hn
    simp [List.getElem?_set_self h, List.getElem?_eq_getElem h]
  · simp [List.getElem?_set_ne (fun h' => hn h'.symm)]

theorem head?_set_of_pos {α : Type*} (l : List α) {p : Nat} (hp : 1 ≤ p) (a : α) :
    (l.set p a).head? = l.head? := by
  cases l with
  | nil => simp
  | cons x xs =>
    cases p with
    | zero => omega
    | succ p => simp [List.set_cons_succ]

theorem set_append_perm {α : Type*} :
    ∀ (l : List α) (p : Nat), p < l.length → ∀ (b d : α),
      List.Perm ((l.set p b) ++ [l.getD p d]) (l ++ [b])
  | [], p, hp, _, _ => by simp at hp
  | x :: xs, 0, _, b, d => by
    simp only [List.set_cons_zero, List.getD_cons_zero]
    refine List.Perm.trans (List.perm_append_comm) ?_
    show List.Perm (x :: ([b] ++ xs)) ((x :: xs) ++ [b])
    exact (List.perm_append_comm).cons x
  | x :: xs, p + 1, hp, b, d => by
    simp only [List.set_cons_succ, List.getD_cons_succ, List.cons_append]
    exact (set_append_perm xs p (by simpa using hp) b d).cons x

theorem flatten_set_perm {α : Type*} :
    ∀ (ts : List (List α)) (i : Nat), i < ts.length → ∀ (x : List α),
      List.Perm ((ts.set i x).flatten ++ (ts.getD i [])) (ts.flatten ++ x)
  | [], i, hi, _ => by simp at hi
  | t :: ts, 0, _, x => by
    simp only [List.set_cons_zero, List.getD_cons_zero, List.flatten_cons]
    refine List.Perm.trans (List.perm_append_comm) ?_
    rw [← List.append_assoc]
    refine List.Perm.trans (List.perm_append_comm.append_right ts.flatten) ?_
    rw [List.append_assoc]
    exact List.perm_append_comm
  | t :: ts, i + 1, hi, x => by
    simp only [List.set_cons_succ, List.getD_cons_succ, List.flatten_cons]
    rw [List.append_assoc, List.append_assoc]
    exact (flatten_set_perm ts i (by simpa using hi) x).append_left t

theorem coe_append_multiset {α : Type*} (l₁ l₂ : List α) :
    ((l₁ ++ l₂ : List α) : Multiset α) = (l₁ : Multiset α) + (l₂ : Multiset α) :=
  rfl

/-! ## `swapPlayers` lemmas -/

theorem swapPlayers_length (ts : List (List Player)) (i j p q : Nat) :
    (swapPlayers ts i j p q).length = ts.length := by
  simp [swapPlayers]

theorem swapPlayers_getD_length (ts : List (List Player)) (i j p q t : Nat) :
    ((swapPlayers ts i j p q).getD t []).length = (ts.getD t []).length := by
  unfold swapPlayers
  by_cases hj : t = j
  · subst hj
    by_cases hlt : t < ts.length
    · rw [getD_set_self _ (by simpa using hlt)]
      simp
    · have h1 : ts.length ≤ t := Nat.le_of_not_lt hlt
      rw [List.set_eq_of_length_le (by simpa using h1)]
      by_cases hi : t = i
      · subst hi
        rw [List.set_eq_of_length_le h1]
      · rw [getD_set_ne _ (fun h => hi h.symm)]
  · rw [getD_set_ne _ (fun h => hj h.symm)]
    by_cases hi : t = i
    · subst hi
      by_cases hlt : t < ts.length
      · rw [getD_set_self _ hlt]
        simp
      · rw [List.set_eq_of_length_le (Nat.le_of_not_lt hlt)]
    · rw [getD_set_ne _ (fun h => hi h.symm)]

theorem swapPlayers_head (ts : List (List Player)) (i j : Nat) {p q : Nat}
    (hp : 1 ≤ p) (hq : 1 ≤ q) (t : Nat) :
    ((swapPlayers ts i j p q).getD t []).head? = (ts.getD t []).head? := by
  unfold swapPlayers
  by_cases hj : t = j
  · subst hj
    by_cases hlt : t < ts.length
    · rw [getD_set_self _ (by simpa using hlt)]
      exact head?_set_of_pos _ hq _
    · have h1 : ts.length ≤ t := Nat.le_of_not_lt hlt
      rw [List.set_eq_of_length_le (by simpa using h1)]
      by_cases hi : t = i
      · subst hi
        rw [List.set_eq_of_length_le h1]
      · rw [getD_set_ne _ (fun h => hi h.symm)]
  · rw [getD_set_ne _ (fun h => hj h.symm)]
    by_cases hi : t = i
    · subst hi
      by_cases hlt : t < ts.length
      · rw [getD_set_self _ hlt]
        exact head?_set_of_pos _ hp _
      · rw [List.set_eq_of_length_le (Nat.le_of_not_lt hlt)]
    · rw [getD_set_ne _ (fun h => hi h.symm)]

theorem swapPlayers_involution (ts : List (List Player)) {i j p q : Nat}
    (hij : i ≠ j) (hi : i < ts.length) (hj : j < ts.length)
    (hp : p < (ts.getD i []).length) (hq : q < (ts.getD j []).length) :
    swapPlayers (swapPlayers ts i j p q) i j p q = ts := by
  simp only [swapPlayers]
  have h1 : ((ts.set i ((ts.getD i []).set p ((ts.getD j []).getD q default))).set j
      ((ts.getD j []).set q ((ts.getD i []).getD p default))).getD i []
      = (ts.getD i []).set p ((ts.getD j []).getD q default) := by
    rw [getD_set_ne _ (fun h => hij h.symm), getD_set_self _ hi]
  have h2 : ((ts.set i ((ts.getD i []).set p ((ts.getD j []).getD q default))).set j
      ((ts.getD j []).set q ((ts.getD i []).getD p default))).getD j []
      = (ts.getD j []).set q ((ts.getD i []).getD p default) := by
    rw [getD_set_self _ (by simpa using hj)]
  rw [h1, h2]
  rw [getD_set_self _ (by simpa using hq), getD_set_self _ (by simpa using hp)]
  rw [List.set_set, List.set_set, set_getD_self _ hp, set_getD_self _ hq]
  rw [List.set_comm _ _ _ (fun h => hij h.symm)]
  rw [List.set_set, List.set_set, set_getD_self _ hi, set_getD_self _ hj]

theorem swapPlayers_flatten_multiset (ts : List (List Player)) {i j p q : Nat}
    (hij : i ≠ j) (hi : i < ts.length) (hj : j < ts.length)
    (hp : p < (ts.getD i []).length) (hq : q < (ts.getD j []).length) :
    ((swapPlayers ts i j p q).flatten : Multiset Player) = (ts.flatten : Multiset Player) := by
  have hlen1 : i < (ts.set i ((ts.getD i []).set p ((ts.getD j []).getD q default))).length := by
    simpa using hi
  have hgetj : (ts.set i ((ts.getD i []).set p ((ts.getD j []).getD q default))).getD j []
      = ts.getD j [] := getD_set_ne _ hij _ _
  -- the four permutation facts, converted to multiset equations
  have a1 : ((swapPlayers ts i j p q).flatten : Multiset Player) + (ts.getD j [] : Multiset Player)
      = (((ts.set i ((ts.getD i []).set p ((ts.getD j []).getD q default))).flatten : List Player) : Multiset Player)
        + (((ts.getD j []).set q ((ts.getD i []).getD p default) : List Player) : Multiset Player) := by
    have := flatten_set_perm (ts.set i ((ts.getD i []).set p ((ts.getD j []).getD q default))) j
      (by simpa using hj) ((ts.getD j []).set q ((ts.getD i []).getD p default))
    rw [hgetj] at this
    have hm := Multiset.coe_eq_coe.mpr this
    rw [coe_append_multiset, coe_append_multiset] at hm
    exact hm
  have a2 : (((ts.set i ((ts.getD i []).set p ((ts.getD j []).getD q default))).flatten : List Player) : Multiset Player)
        + (ts.getD i [] : Multiset Player)
      = (ts.flatten : Multiset Player)
        + (((ts.getD i []).set p ((ts.getD j []).getD q default) : List Player) : Multiset Player) := by
    have := flatten_set_perm ts i hi ((ts.getD i []).set p ((ts.getD j []).getD q default))
    have hm := Multiset.coe_eq_coe.mpr this
    rw [coe_append_multiset, coe_append_multiset] at hm
    exact hm
  have a3 : (((ts.getD i []).set p ((ts.getD j []).getD q default) : List Player) : Multiset Player)
        + {(ts.getD i []).getD p default}
      = ((ts.getD i [] : List Player) : Multiset Player) + {(ts.getD j []).getD q default} := by
    have := set_append_perm (ts.getD i []) p hp ((ts.getD j []).getD q default) default
    have hm := Multiset.coe_eq_coe.mpr this
    rw [coe_append_multiset, coe_append_multiset] at hm
    simpa using hm
  have a4 : (((ts.getD j []).set q ((ts.getD i []).getD p default) : List Player) : Multiset Player)
        + {(ts.getD j []).getD q default}
      = ((ts.getD j [] : List Player) : Multiset Player) + {(ts.getD i []).getD p default} := by
    have := set_append_perm (ts.getD j []) q hq ((ts.getD i []).getD p default) default
    have hm := Multiset.coe_eq_coe.mpr this
    rw [coe_append_multiset, coe_append_multiset] at hm
    simpa using hm
  -- cancellation in the commutative cancel monoid of multisets
  revert a1 a2 a3 a4
  generalize ((swapPlayers ts i j p q).flatten : Multiset Player) = X2
  generalize ((ts.flatten : List Player) : Multiset Player) = X
  generalize (((ts.set i ((ts.getD i []).set p ((ts.getD j []).getD q default))).flatten : List Player) : Multiset Player) = X1
  generalize ((ts.getD i [] : List Player) : Multiset Player) = I
  generalize ((ts.getD j [] : List Player) : Multiset Player) = J
  generalize (((ts.getD i []).set p ((ts.getD j []).getD q default) : List Player) : Multiset Player) = I'
  generalize (((ts.getD j []).set q ((ts.getD i []).getD p default) : List Player) : Multiset Player) = J'
  generalize ({(ts.getD i []).getD p default} : Multiset Player) = A
  generalize ({(ts.getD j []).getD q default} : Multiset Player) = B
  intro a1 a2 a3 a4
  have key : X2 + (J + I + A + B) = X + (J + I + A + B) := by
    calc X2 + (J + I + A + B) = (X2 + J) + (I + A + B) := by abel
    _ = (X1 + J') + (I + A + B) := by rw [a1]
    _ = (X1 + I) + ((J' + B) + A) := by abel
    _ = (X + I') + ((J + A) + A) := by rw [a2, a4]
    _ = (X + (I' + A)) + (J + A) := by abel
    _ = (X + (I + B)) + (J + A) := by rw [a3]
    _ = X + (J + I + A + B) := by abel
  exact add_right_cancel key

theorem flatten_filter_nonempty :
    ∀ ts : List (List Player), (ts.filter (fun team => !team.isEmpty)).flatten = ts.flatten
  | [] => rfl
  | t :: ts => by
    cases t with
    | nil => simpa using flatten_filter_nonempty ts
    | cons x xs => simpa using flatten_filter_nonempty ts

theorem flatten_replicate_nil : ∀ k : Nat, (List.replicate k ([] : List Player)).flatten = []
  | 0 => rfl
  | k + 1 => by simpa [List.replicate_succ] using flatten_replicate_nil k

theorem length_flatten_le (ts : List (List Player)) (h : ∀ team ∈ ts, team.length ≤ 4) :
    ts.flatten.length ≤ 4 * ts.length := by
  induction ts with
  | nil => simp
  | cons t ts ih =>
    have ht := h t (List.mem_cons_self t ts)
    have := ih (fun team hm => h team (List.mem_cons_of_mem t hm))
    simp only [List.flatten_cons, List.length_append, List.length_cons]
    omega

/-! ## Invariants of the local-improvement search -/

theorem teamsRel_refl (T : List (List Player)) : TeamsRel T T := ⟨rfl, fun _ => rfl, rfl⟩

theorem teamsRel_trans {A B C : List (List Player)} (h1 : TeamsRel A B) (h2 : TeamsRel B C) :
    TeamsRel A C :=
  ⟨h2.1.trans h1.1, fun t => (h2.2.1 t).trans (h1.2.1 t), h2.2.2.trans h1.2.2⟩

theorem teamsRelR_refl (T : List (List Player)) : TeamsRelR T T :=
  ⟨teamsRel_refl T, fun _ => rfl⟩

theorem teamsRelR_trans {A B C : List (List Player)} (h1 : TeamsRelR A B) (h2 : TeamsRelR B C) :
    TeamsRelR A C :=
  ⟨teamsRel_trans h1.1 h2.1, fun t => (h2.2 t).trans (h1.2 t)⟩

theorem trySwap_rel (st : SweepState) {i j p q : Nat}
    (hij : i ≠ j) (hi : i < st.teams.length) (hj : j < st.teams.length)
    (hp : p < (st.teams.getD i []).length) (hq : q < (st.teams.getD j []).length) :
    TeamsRel st.teams (trySwap st i j p q).teams := by
  simp only [trySwap]
  split
  · exact ⟨swapPlayers_length _ _ _ _ _, fun t => swapPlayers_getD_length _ _ _ _ _ t,
      swapPlayers_flatten_multiset _ hij hi hj hp hq⟩
  · rw [swapPlayers_involution st.teams hij hi hj hp hq]
    exact teamsRel_refl _

theorem trySwap_relR (st : SweepState) {i j p q : Nat}
    (hij : i ≠ j) (hi : i < st.teams.length) (hj : j < st.teams.length)
    (hp : p < (st.teams.getD i []).length) (hq : q < (st.teams.getD j []).length)
    (hp1 : 1 ≤ p) (hq1 : 1 ≤ q) :
    TeamsRelR st.teams (trySwap st i j p q).teams := by
  refine ⟨trySwap_rel st hij hi hj hp hq, ?_⟩
  simp only [trySwap]
  split
  · exact fun t => swapPlayers_head _ _ _ hp1 hq1 t
  · exact fun t => (swapPlayers_head _ _ _ hp1 hq1 t).trans (swapPlayers_head _ _ _ hp1 hq1 t)

theorem sweepPair_rel (st : SweepState) (i j : Nat) (hij : i < j) :
    TeamsRel st.teams (sweepPair st i j).teams := by
  unfold sweepPair
  split
  · exact teamsRel_refl _
  · rename_i hg
    have hi : i < st.teams.length :=
      lt_length_of_getD_ne (fun h => hg (by rw [h]; simp))
    have hj : j < st.teams.length :=
      lt_length_of_getD_ne (fun h => hg (by rw [h]; simp))
    refine foldl_preserve (fun st1 => TeamsRel st.teams st1.teams) _ _ st (teamsRel_refl _) ?_
    intro st1 p hpmem hrel1
    refine foldl_preserve (fun st2 => TeamsRel st.teams st2.teams) _ _ st1 hrel1 ?_
    intro st2 q hqmem hrel2
    have hp : p < (st2.teams.getD i []).length := by
      rw [hrel2.2.1 i]; exact List.mem_range.mp hpmem
    have hq : q < (st2.teams.getD j []).length := by
      rw [hrel2.2.1 j, ← hrel1.2.1 j]; exact List.mem_range.mp hqmem
    have hi2 : i < st2.teams.length := by rw [hrel2.1]; exact hi
    have hj2 : j < st2.teams.length := by rw [hrel2.1]; exact hj
    exact teamsRel_trans hrel2 (trySwap_rel st2 (Nat.ne_of_lt hij) hi2 hj2 hp hq)

theorem sweepPairR_rel (st : SweepState) (i j : Nat) (hij : i < j) :
    TeamsRelR st.teams (sweepPairR st i j).teams := by
  unfold sweepPairR
  split
  · exact teamsRelR_refl _
  · rename_i hg
    have hlen1 : 1 < (st.teams.getD i []).length := by
      by_contra hc
      exact hg (by simp only [Bool.or_eq_true, decide_eq_true_eq]; left; omega)
    have hlen2 : 1 < (st.teams.getD j []).length := by
      by_contra hc
      exact hg (by simp only [Bool.or_eq_true, decide_eq_true_eq]; right; omega)
    have hi : i < st.teams.length :=
      lt_length_of_getD_ne (fun h => by rw [h] at hlen1; simp at hlen1)
    have hj : j < st.teams.length :=
      lt_length_of_getD_ne (fun h => by rw [h] at hlen2; simp at hlen2)
    refine foldl_preserve (fun st1 => TeamsRelR st.teams st1.teams) _ _ st (teamsRelR_refl _) ?_
    intro st1 p hpmem hrel1
    refine foldl_preserve (fun st2 => TeamsRelR st.teams st2.teams) _ _ st1 hrel1 ?_
    intro st2 q hqmem hrel2
    have hpm := List.mem_range'_1.mp hpmem
    have hqm := List.mem_range'_1.mp hqmem
    have hp : p < (st2.teams.getD i []).length := by
      rw [hrel2.1.2.1 i]; omega
    have hq : q < (st2.teams.getD j []).length := by
      rw [hrel2.1.2.1 j, ← hrel1.1.2.1 j]; omega
    have hi2 : i < st2.teams.length := by rw [hrel2.1.1]; exact hi
    have hj2 : j < st2.teams.length := by rw [hrel2.1.1]; exact hj
    exact teamsRelR_trans hrel2
      (trySwap_relR st2 (Nat.ne_of_lt hij) hi2 hj2 hp hq hpm.1 hqm.1)

theorem sweepWith_pres (R : List (List Player) → List (List Player) → Prop)
    (hrefl : ∀ T, R T T) (htrans : ∀ {A B C}, R A B → R B C → R A C)
    (pairFn : SweepState → Nat → Nat → SweepState)
    (hpair : ∀ st i j, i < j → R st.teams (pairFn st i j).teams)
    (num_teams : Nat) (teams : List (List Player)) :
    R teams (sweepWith pairFn num_teams teams).1 := by
  unfold sweepWith
  refine foldl_preserve (fun (st : SweepState) => R teams st.teams) _ _ _ (hrefl _) ?_
  intro st i _ hst
  refine foldl_preserve (fun (st1 : SweepState) => R teams st1.teams) _ _ st hst ?_
  intro st1 j hjmem hst1
  have hij : i < j := by
    have := List.mem_range'_1.mp hjmem
    omega
  exact htrans hst1 (hpair st1 i j hij)

theorem localOptimizeWith_pres (R : List (List Player) → List (List Player) → Prop)
    (hrefl : ∀ T, R T T) (htrans : ∀ {A B C}, R A B → R B C → R A C)
    (pairFn : SweepState → Nat → Nat → SweepState)
    (hpair : ∀ st i j, i < j → R st.teams (pairFn st i j).teams)
    (num_teams : Nat) :
    ∀ (fuel : Nat) (teams : List (List Player)),
      R teams (localOptimizeWith pairFn num_teams fuel teams)
  | 0, teams => hrefl teams
  | fuel + 1, teams => by
    have h1 : R teams (sweepWith pairFn num_teams teams).1 :=
      sweepWith_pres R hrefl htrans pairFn hpair num_teams teams
    simp only [localOptimizeWith]
    cases hE : sweepWith pairFn num_teams teams with
    | mk t' imp =>
      rw [hE] at h1
      cases imp with
      | false => simpa using h1
      | true =>
        simp only [if_pos]
        exact htrans h1
          (localOptimizeWith_pres R hrefl htrans pairFn hpair num_teams fuel t')

theorem localOptimize_rel (num_teams fuel : Nat) (teams : List (List Player)) :
    TeamsRel teams (localOptimize num_teams fuel teams) :=
  localOptimizeWith_pres TeamsRel teamsRel_refl (fun h1 h2 => teamsRel_trans h1 h2)
    sweepPair sweepPair_rel num_teams fuel teams

theorem localOptimizeR_rel (num_teams fuel : Nat) (teams : List (List Player)) :
    TeamsRelR teams (localOptimizeR num_teams fuel teams) :=
  localOptimizeWith_pres TeamsRelR teamsRelR_refl (fun h1 h2 => teamsRelR_trans h1 h2)
    sweepPairR sweepPairR_rel num_teams fuel teams

/-! ## Draft-order counting: each round of `k` consecutive picks hits each
team exactly once, so when the draft reaches pick `i` the target team holds
exactly `i / k` players more than it started with. -/

theorem countP_range_add (p : Nat → Bool) (a : Nat) :
    ∀ m, (List.range (a + m)).countP p
      = (List.range a).countP p + (List.range m).countP (fun x => p (a + x))
  | 0 => by simp
  | m + 1 => by
    rw [← Nat.add_assoc, List.range_succ, List.range_succ,
      List.countP_append, List.countP_append, countP_range_add p a m]
    simp only [List.countP_cons, List.countP_nil]
    omega

theorem countP_eq_one_unique :
    ∀ (l : List Nat), l.Nodup → ∀ (p : Nat → Bool) (a : Nat), a ∈ l → p a = true →
      (∀ b ∈ l, p b = true → b = a) → l.countP p = 1
  | [], _, _, a, ha, _, _ => by simp at ha
  | x :: xs, hnd, p, a, ha, hpa, hu => by
    have hnd' := List.nodup_cons.mp hnd
    rw [List.countP_cons]
    by_cases hx : p x = true
    · have hxa : x = a := hu x (List.mem_cons_self x xs) hx
      have hzero : xs.countP p = 0 := List.countP_eq_zero.mpr (fun b hb hpb => by
        have hba : b = a := hu b (List.mem_cons_of_mem x hb) hpb
        have haxs : a ∈ xs := hba ▸ hb
        exact hnd'.1 (by rw [hxa]; exact haxs))
      rw [hzero, if_pos hx]
    · have hax : a ≠ x := fun h => hx (h ▸ hpa)
      have ha' : a ∈ xs := by
        rcases List.mem_cons.mp ha with h | h
        · exact absurd h hax
        · exact h
      rw [if_neg hx, Nat.add_zero]
      exact countP_eq_one_unique xs hnd'.2 p a ha' hpa
        (fun b hb hpb => hu b (List.mem_cons_of_mem x hb) hpb)

theorem roundIdx_window_count {F : Nat → Nat} {k : Nat} (h : RoundIdx F k)
    (q t : Nat) (ht : t < k) :
    (List.range k).countP (fun a => F (q * k + a) == t) = 1 := by
  obtain ⟨a₀, ha₀k, ha₀⟩ := h.surj q t ht
  refine countP_eq_one_unique _ (List.nodup_range _) _ a₀
    (List.mem_range.mpr ha₀k) (by simp [ha₀]) ?_
  intro b hb hpb
  exact h.inj q b a₀ (List.mem_range.mp hb) ha₀k (by rw [ha₀]; simpa using hpb)

theorem cnt_full_rounds {F : Nat → Nat} {k : Nat} (h : RoundIdx F k) {t : Nat} (ht : t < k) :
    ∀ q, cntF F t (q * k) = q
  | 0 => by simp [cntF]
  | q + 1 => by
    have hmul : (q + 1) * k = q * k + k := by ring
    unfold cntF
    rw [hmul, countP_range_add]
    have h1 : (List.range (q * k)).countP (fun j => F j == t) = q := cnt_full_rounds h ht q
    rw [h1, roundIdx_window_count h q t ht]

theorem cnt_partial {F : Nat → Nat} {k : Nat} (h : RoundIdx F k) (q r : Nat) (hr : r < k) :
    (List.range r).countP (fun a => F (q * k + a) == F (q * k + r)) = 0 :=
  List.countP_eq_zero.mpr (fun a ha hpa => by
    have haf : F (q * k + a) = F (q * k + r) := by simpa using hpa
    have h1 := h.inj q a r (Nat.lt_trans (List.mem_range.mp ha) hr) hr haf
    have h2 := List.mem_range.mp ha
    omega)

theorem cnt_idx {F : Nat → Nat} {k : Nat} (h : RoundIdx F k) (hk : 1 ≤ k) (i : Nat) :
    cntF F (F i) i = i / k := by
  have hi : i = (i / k) * k + i % k := by
    rw [Nat.mul_comm (i / k) k]
    exact (Nat.div_add_mod i k).symm
  unfold cntF
  have key : (List.range i).countP (fun j => F j == F i)
      = (List.range (i / k * k + i % k)).countP (fun j => F j == F i) := by rw [← hi]
  rw [key, countP_range_add]
  have h1 : (List.range (i / k * k)).countP (fun j => F j == F i) = i / k :=
    cnt_full_rounds h (h.lt i) (i / k)
  have h2 : (List.range (i % k)).countP (fun x => F (i / k * k + x) == F i) = 0 := by
    have hpart := cnt_partial h (i / k) (i % k) (Nat.mod_lt i hk)
    rw [← hi] at hpart
    exact hpart
  rw [h1, h2]
  omega

theorem cnt_succ (F : Nat → Nat) (t i : Nat) :
    cntF F t (i + 1) = cntF F t i + (if F i = t then 1 else 0) := by
  unfold cntF
  rw [List.range_succ, List.countP_append]
  simp [List.countP_cons]

theorem snakeIdx_spec {k : Nat} (hk : 1 ≤ k) (q a : Nat) (ha : a < k) :
    snakeIdx k (q * k + a) = if q % 2 = 1 then k - 1 - a else a := by
  unfold snakeIdx
  have hdiv : (q * k + a) / k = q := by
    rw [Nat.mul_comm, Nat.mul_add_div (by omega)]
    rw [Nat.div_eq_of_lt ha]
    omega
  have hmod : (q * k + a) % k = a := by
    rw [Nat.mul_comm q k, Nat.mul_add_mod, Nat.mod_eq_of_lt ha]
  rw [hdiv, hmod]

theorem snakeIdx_roundIdx {k : Nat} (hk : 1 ≤ k) : RoundIdx (snakeIdx k) k := by
  refine ⟨?_, ?_, ?_⟩
  · intro j
    simp only [snakeIdx]
    have h1 : j % k < k := Nat.mod_lt j hk
    split <;> omega
  · intro q a b ha hb heq
    rw [snakeIdx_spec hk q a ha, snakeIdx_spec hk q b hb] at heq
    by_cases hq : q % 2 = 1
    · rw [if_pos hq, if_pos hq] at heq; omega
    · rw [if_neg hq, if_neg hq] at heq; omega
  · intro q t ht
    by_cases hq : q % 2 = 1
    · refine ⟨k - 1 - t, by omega, ?_⟩
      rw [snakeIdx_spec hk q _ (by omega), if_pos hq]
      omega
    · exact ⟨t, ht, by rw [snakeIdx_spec hk q t ht, if_neg hq]⟩

theorem modIdx_roundIdx {k : Nat} (hk : 1 ≤ k) : RoundIdx (fun i => i % k) k := by
  refine ⟨fun j => Nat.mod_lt j hk, ?_, ?_⟩
  · intro q a b ha hb heq
    rw [Nat.mul_comm q k, Nat.mul_add_mod, Nat.mul_add_mod,
      Nat.mod_eq_of_lt ha, Nat.mod_eq_of_lt hb] at heq
    exact heq
  · intro q t ht
    exact ⟨t, ht, by rw [Nat.mul_comm q k, Nat.mul_add_mod, Nat.mod_eq_of_lt ht]⟩

/-! ## Distribution (snake draft / round robin) lemmas -/

theorem capInsert_length (ts : List (List Player)) (t₀ : Nat) (p : Player) :
    (capInsert ts t₀ p).length = ts.length := by
  unfold capInsert
  split <;> simp

theorem capInsert_getD_le (ts : List (List Player)) (t₀ : Nat) (p : Player)
    (h4 : ∀ t, (ts.getD t []).length ≤ 4) :
    ∀ t, ((capInsert ts t₀ p).getD t []).length ≤ 4 := by
  intro t
  unfold capInsert
  split
  · rename_i hlt
    by_cases ht : t₀ = t
    · subst ht
      by_cases hl : t₀ < ts.length
      · rw [getD_set_self _ hl]
        simp only [List.length_append, List.length_cons, List.length_nil]
        omega
      · rw [List.set_eq_of_length_le (Nat.le_of_not_lt hl)]
        exact h4 t₀
    · rw [getD_set_ne _ ht]
      exact h4 t
  · exact h4 t

theorem distribPlayers_getD_le (F : Nat → Nat) :
    ∀ (l : List Player) (ts : List (List Player)) (i : Nat),
      (∀ t, (ts.getD t []).length ≤ 4) →
      ∀ t, ((distribPlayers F ts i l).getD t []).length ≤ 4
  | [], _, _, h4, t => h4 t
  | p :: rest, ts, i, h4, t =>
    distribPlayers_getD_le F rest (capInsert ts (F i) p) (i + 1)
      (capInsert_getD_le ts (F i) p h4) t

theorem distribPlayers_length (F : Nat → Nat) :
    ∀ (l : List Player) (ts : List (List Player)) (i : Nat),
      (distribPlayers F ts i l).length = ts.length
  | [], _, _ => rfl
  | p :: rest, ts, i => by
    rw [distribPlayers, distribPlayers_length F rest _ _, capInsert_length]

theorem capInsert_flatten_le (ts : List (List Player)) (t₀ : Nat) (p : Player) :
    ((capInsert ts t₀ p).flatten : Multiset Player)
      ≤ (ts.flatten : Multiset Player) + {p} := by
  unfold capInsert
  split
  · by_cases hl : t₀ < ts.length
    · have hm := Multiset.coe_eq_coe.mpr (flatten_set_perm ts t₀ hl (ts.getD t₀ [] ++ [p]))
      rw [coe_append_multiset, coe_append_multiset, coe_append_multiset] at hm
      have heq : ((ts.set t₀ (ts.getD t₀ [] ++ [p])).flatten : Multiset Player)
          = (ts.flatten : Multiset Player) + {p} := by
        refine add_right_cancel (b := (ts.getD t₀ [] : Multiset Player)) ?_
        rw [hm]
        simp only [Multiset.coe_singleton]
        abel
      rw [heq]
    · rw [List.set_eq_of_length_le (Nat.le_of_not_lt hl)]
      exact le_add_right le_rfl
  · exact le_add_right le_rfl

theorem distribPlayers_nil (F : Nat → Nat) (ts : List (List Player)) (i : Nat) :
    distribPlayers F ts i [] = ts := rfl

theorem distribPlayers_flatten_le (F : Nat → Nat) :
    ∀ (l : List Player) (ts : List (List Player)) (i : Nat),
      ((distribPlayers F ts i l).flatten : Multiset Player)
        ≤ (ts.flatten : Multiset Player) + (l : Multiset Player)
  | [], ts, i => by rw [distribPlayers_nil]; simp
  | p :: rest, ts, i => by
    have h1 := distribPlayers_flatten_le F rest (capInsert ts (F i) p) (i + 1)
    have h2 := capInsert_flatten_le ts (F i) p
    calc ((distribPlayers F (capInsert ts (F i) p) (i + 1) rest).flatten : Multiset Player)
        ≤ ((capInsert ts (F i) p).flatten : Multiset Player) + (rest : Multiset Player) := h1
    _ ≤ ((ts.flatten : Multiset Player) + {p}) + (rest : Multiset Player) :=
        add_le_add_right h2 _
    _ = (ts.flatten : Multiset Player) + ((p :: rest : List Player) : Multiset Player) := by
        rw [← Multiset.cons_coe, ← Multiset.singleton_add]
        abel

theorem distribPlayers_complete {F : Nat → Nat} {k : Nat} (c₀ : Nat)
    (hF : RoundIdx F k) (hk : 1 ≤ k) (hc₀ : c₀ ≤ 4) :
    ∀ (l : List Player) (ts : List (List Player)) (i : Nat),
      ts.length = k →
      (∀ t, t < k → (ts.getD t []).length = c₀ + cntF F t i) →
      i + l.length ≤ (4 - c₀) * k →
      ((distribPlayers F ts i l).flatten : Multiset Player)
          = (ts.flatten : Multiset Player) + (l : Multiset Player)
      ∧ (∀ t, t < k →
          ((distribPlayers F ts i l).getD t []).length = c₀ + cntF F t (i + l.length))
  | [], ts, i, hlen, hprof, hcap => by
    rw [distribPlayers_nil]
    refine ⟨by simp, ?_⟩
    simpa using hprof
  | p :: rest, ts, i, hlen, hprof, hcap => by
    have ht₀ : F i < k := hF.lt i
    have hcnt : cntF F (F i) i = i / k := cnt_idx hF hk i
    have hlt4 : (ts.getD (F i) []).length < 4 := by
      rw [hprof (F i) ht₀, hcnt]
      have hik : i < (4 - c₀) * k := by
        have : (p :: rest).length = rest.length + 1 := rfl
        omega
      have hdivlt : i / k < 4 - c₀ := (Nat.div_lt_iff_lt_mul (by omega)).mpr hik
      omega
    have hstep : capInsert ts (F i) p = ts.set (F i) (ts.getD (F i) [] ++ [p]) := by
      unfold capInsert
      rw [if_pos hlt4]
    have hl : F i < ts.length := by rw [hlen]; exact ht₀
    have hflat : (((ts.set (F i) (ts.getD (F i) [] ++ [p])).flatten : List Player) : Multiset Player)
        = (ts.flatten : Multiset Player) + {p} := by
      have hm := Multiset.coe_eq_coe.mpr (flatten_set_perm ts (F i) hl (ts.getD (F i) [] ++ [p]))
      rw [coe_append_multiset, coe_append_multiset, coe_append_multiset] at hm
      refine add_right_cancel (b := (ts.getD (F i) [] : Multiset Player)) ?_
      rw [hm]
      simp only [Multiset.coe_singleton]
      abel
    have hlen' : (ts.set (F i) (ts.getD (F i) [] ++ [p])).length = k := by
      rw [List.length_set, hlen]
    have hprof' : ∀ t, t < k →
        ((ts.set (F i) (ts.getD (F i) [] ++ [p])).getD t []).length = c₀ + cntF F t (i + 1) := by
      intro t ht
      by_cases hteq : F i = t
      · subst hteq
        rw [getD_set_self _ hl]
        rw [cnt_succ, if_pos rfl]
        simp only [List.length_append, List.length_cons, List.length_nil]
        rw [hprof (F i) ht]
        omega
      · rw [getD_set_ne _ hteq, cnt_succ, if_neg hteq, hprof t ht]
        omega
    have hcap' : (i + 1) + rest.length ≤ (4 - c₀) * k := by
      have : (p :: rest).length = rest.length + 1 := rfl
      omega
    have IH := distribPlayers_complete c₀ hF hk hc₀ rest
      (ts.set (F i) (ts.getD (F i) [] ++ [p])) (i + 1) hlen' hprof' hcap'
    constructor
    · show ((distribPlayers F (capInsert ts (F i) p) (i + 1) rest).flatten : Multiset Player) = _
      rw [hstep, IH.1, hflat]
      rw [← Multiset.cons_coe, ← Multiset.singleton_add]
      abel
    · intro t ht
      show ((distribPlayers F (capInsert ts (F i) p) (i + 1) rest).getD t []).length = _
      rw [hstep]
      have harith : i + (p :: rest).length = (i + 1) + rest.length := by
        simp only [List.length_cons]
        omega
      rw [harith]
      exact IH.2 t ht

theorem distribPlayers_head (F : Nat → Nat) :
    ∀ (l : List Player) (ts : List (List Player)) (i : Nat),
      (∀ t, t < ts.length → ts.getD t [] ≠ []) →
      (∀ t, ((distribPlayers F ts i l).getD t []).head? = (ts.getD t []).head?)
  | [], _, _, _, _ => rfl
  | p :: rest, ts, i, hne, t => by
    have hcap_head : ∀ u, ((capInsert ts (F i) p).getD u []).head? = (ts.getD u []).head? := by
      intro u
      unfold capInsert
      split
      · by_cases hl : F i < ts.length
        · by_cases hu : F i = u
          · subst hu
            rw [getD_set_self _ hl]
            cases hT : ts.getD (F i) [] with
            | nil => exact absurd hT (hne (F i) hl)
            | cons x xs => simp
          · rw [getD_set_ne _ hu]
        · rw [List.set_eq_of_length_le (Nat.le_of_not_lt hl)]
      · rfl
    have hcap_ne : ∀ u, u < (capInsert ts (F i) p).length → (capInsert ts (F i) p).getD u [] ≠ [] := by
      intro u hu hnil
      rw [capInsert_length] at hu
      have h1 := hcap_head u
      rw [hnil] at h1
      exact hne u hu (List.head?_eq_none_iff.mp h1.symm)
    rw [distribPlayers]
    rw [distribPlayers_head F rest (capInsert ts (F i) p) (i + 1) hcap_ne t]
    exact hcap_head t

/-! ## Seeding, tier shuffling, sorting -/

theorem getD_replicate_nil (k t : Nat) :
    ((List.replicate k ([] : List Player)).getD t []) = [] := by
  rw [List.getD_eq_getElem?_getD, List.getElem?_replicate]
  split <;> rfl

theorem seedTeams_aux (k : Nat) (rl : List Player) :
    ∀ n,
      ((List.range n).foldl (fun ts i => ts.set i ((ts.getD i []) ++ [rl.getD i default]))
        (List.replicate k ([] : List Player))).length = k ∧
      ∀ t, ((List.range n).foldl (fun ts i => ts.set i ((ts.getD i []) ++ [rl.getD i default]))
        (List.replicate k ([] : List Player))).getD t []
          = if t < n ∧ t < k then [rl.getD t default] else []
  | 0 => by
    refine ⟨by simp, fun t => ?_⟩
    rw [if_neg (by omega)]
    exact getD_replicate_nil k t
  | n + 1 => by
    have IH := seedTeams_aux k rl n
    rw [List.range_succ, List.foldl_append]
    simp only [List.foldl_cons, List.foldl_nil]
    constructor
    · rw [List.length_set, IH.1]
    · intro t
      by_cases ht : n = t
      · subst ht
        by_cases hk : n < k
        · rw [getD_set_self _ (by rw [IH.1]; exact hk), IH.2 n, if_neg (by omega),
            if_pos (by omega)]
          rfl
        · rw [List.set_eq_of_length_le (by rw [IH.1]; omega), IH.2 n,
            if_neg (by omega), if_neg (by omega)]
      · rw [getD_set_ne _ ht, IH.2 t]
        by_cases hc : t < n ∧ t < k
        · rw [if_pos hc, if_pos (by omega)]
        · rw [if_neg hc, if_neg (by omega)]

theorem seedTeams_length (k : Nat) (rl : List Player) : (seedTeams k rl).length = k := by
  unfold seedTeams
  exact (seedTeams_aux k rl (min k rl.length)).1

theorem seedTeams_getD (k : Nat) (rl : List Player) (hk : k ≤ rl.length) {t : Nat}
    (ht : t < k) : (seedTeams k rl).getD t [] = [rl.getD t default] := by
  unfold seedTeams
  rw [(seedTeams_aux k rl (min k rl.length)).2 t, if_pos (by omega)]

theorem flatten_map_singleton {α β : Type*} (g : α → β) :
    ∀ l : List α, (l.map (fun a => [g a])).flatten = l.map g
  | [] => rfl
  | x :: xs => by simp [flatten_map_singleton g xs]

theorem map_getD_range (rl : List Player) :
    ∀ k, k ≤ rl.length →
      (List.range k).map (fun t => rl.getD t default) = rl.take k
  | 0, _ => by simp
  | k + 1, hk => by
    rw [List.range_succ, List.map_append, map_getD_range rl k (by omega)]
    have hgetD : rl.getD k default = rl.get ⟨k, by omega⟩ := by
      rw [List.getD_eq_getElem?_getD, List.getElem?_eq_getElem (by omega)]
      rfl
    rw [List.take_succ]
    simp [hgetD, List.get_eq_getElem,
      List.getElem?_eq_getElem (show k < rl.length by omega)]

theorem seedTeams_eq_map (k : Nat) (rl : List Player) (hk : k ≤ rl.length) :
    seedTeams k rl = (List.range k).map (fun t => [rl.getD t default]) := by
  apply List.ext_getElem?
  intro n
  by_cases hn : n < k
  · have h1 : (seedTeams k rl)[n]? = some ((seedTeams k rl).getD n []) := by
      have hlen : n < (seedTeams k rl).length := by rw [seedTeams_length]; exact hn
      rw [List.getElem?_eq_getElem hlen]
      rw [List.getD_eq_getElem?_getD, List.getElem?_eq_getElem hlen]
      rfl
    rw [h1, seedTeams_getD k rl hk hn]
    rw [List.getElem?_map, List.getElem?_range hn]
    rfl
  · have h1 : (seedTeams k rl)[n]? = none :=
      List.getElem?_eq_none (by rw [seedTeams_length]; omega)
    have h2 : ((List.range k).map (fun t => [rl.getD t default]))[n]? = none :=
      List.getElem?_eq_none (by simp; omega)
    rw [h1, h2]

theorem seedTeams_flatten (k : Nat) (rl : List Player) (hk : k ≤ rl.length) :
    (seedTeams k rl).flatten = rl.take k := by
  rw [seedTeams_eq_map k rl hk, flatten_map_singleton, map_getD_range rl k hk]

theorem seedTeams_head (k : Nat) (rl : List Player) (hk : k ≤ rl.length) {t : Nat}
    (ht : t < k) : (seedTeams k rl).getD t [] ≠ [] ∧
      ∃ p, (seedTeams k rl).getD t [] = [p] ∧ p ∈ rl := by
  rw [seedTeams_getD k rl hk ht]
  refine ⟨by simp, rl.getD t default, rfl, ?_⟩
  rw [List.getD_eq_getElem?_getD, List.getElem?_eq_getElem (by omega)]
  exact List.getElem_mem _

theorem chunkShuffleAux_perm {sh : Shuffle} (hsh : IsShuffle sh) (tier_size : Nat) :
    ∀ (fuel c : Nat) (l : List Player),
      List.Perm (chunkShuffleAux sh tier_size fuel c l).1 l
  | fuel, c, [] => by cases fuel <;> exact List.Perm.refl _
  | 0, c, x :: xs => List.Perm.refl _
  | fuel + 1, c, x :: xs => by
    show List.Perm (sh c ((x :: xs).take (max 1 tier_size)) ++
      (chunkShuffleAux sh tier_size fuel (c + 1) ((x :: xs).drop (max 1 tier_size))).1) _
    have h1 := hsh c ((x :: xs).take (max 1 tier_size))
    have h2 := chunkShuffleAux_perm hsh tier_size fuel (c + 1)
      ((x :: xs).drop (max 1 tier_size))
    exact (h1.append h2).trans (by rw [List.take_append_drop])

theorem chunkShuffle_perm {sh : Shuffle} (hsh : IsShuffle sh) (tier_size c : Nat)
    (l : List Player) : List.Perm (chunkShuffle sh tier_size c l).1 l :=
  chunkShuffleAux_perm hsh tier_size l.length c l

theorem chunkShuffleAux_idShuffle (tier_size : Nat) :
    ∀ (fuel c : Nat) (l : List Player),
      (chunkShuffleAux idShuffle tier_size fuel c l).1 = l
  | fuel, c, [] => by cases fuel <;> rfl
  | 0, c, x :: xs => rfl
  | fuel + 1, c, x :: xs => by
    show idShuffle c ((x :: xs).take (max 1 tier_size)) ++
      (chunkShuffleAux idShuffle tier_size fuel (c + 1) ((x :: xs).drop (max 1 tier_size))).1 = _
    rw [chunkShuffleAux_idShuffle tier_size fuel (c + 1)]
    exact List.take_append_drop _ _

theorem chunkShuffle_idShuffle (tier_size c : Nat) (l : List Player) :
    (chunkShuffle idShuffle tier_size c l).1 = l :=
  chunkShuffleAux_idShuffle tier_size l.length c l

theorem sortBySkill_perm (players : List Player) :
    List.Perm (sortBySkill players) players :=
  List.mergeSort_perm players _

/-! ## Per-attempt properties of `generate_optimal_teams` -/

theorem cntF_zero (F : Nat → Nat) (t : Nat) : cntF F t 0 = 0 := rfl

theorem tierShuffleIf_perm {sh : Shuffle} (hsh : IsShuffle sh) (cond rb : Bool)
    (tsA tsB cc : Nat) (l : List Player) :
    List.Perm (tierShuffleIf sh cond rb tsA tsB cc l).1 l := by
  unfold tierShuffleIf
  by_cases hc : cond = true
  · rw [if_pos hc]
    cases rb with
    | true => exact chunkShuffle_perm hsh tsA cc l
    | false => exact chunkShuffle_perm hsh tsB cc l
  · rw [if_neg hc]

theorem tierShuffleIf_idShuffle (cond rb : Bool) (tsA tsB cc : Nat) (l : List Player) :
    (tierShuffleIf idShuffle cond rb tsA tsB cc l).1 = l := by
  unfold tierShuffleIf
  by_cases hc : cond = true
  · rw [if_pos hc]
    cases rb with
    | true => exact chunkShuffle_idShuffle tsA cc l
    | false => exact chunkShuffle_idShuffle tsB cc l
  · rw [if_neg hc]

theorem attemptBody_spec {sh : Shuffle} (hsh : IsShuffle sh) (ps : List Player)
    (k n : Nat) (r : Bool) (a c : Nat) :
    ∃ pl : List Player, List.Perm pl ps ∧
      (attemptBody sh ps k n r a c).1
        = localOptimize k (if n ≤ 8 then 200 else 100)
            (distribPlayers (snakeIdx k) (List.replicate k []) 0 pl) :=
  ⟨(tierShuffleIf sh (decide (a > 0) || r) r (max 2 (ps.length / 3))
      (max 1 (ps.length / 4)) c ps).1,
    tierShuffleIf_perm hsh _ _ _ _ _ _, rfl⟩

theorem attemptBody_idShuffle (ps : List Player) (k n : Nat) (r : Bool) (a c : Nat) :
    (attemptBody idShuffle ps k n r a c).1
      = localOptimize k (if n ≤ 8 then 200 else 100)
          (distribPlayers (snakeIdx k) (List.replicate k []) 0 ps) := by
  show localOptimize k (if n ≤ 8 then 200 else 100)
      (distribPlayers (snakeIdx k) (List.replicate k []) 0
        (tierShuffleIf idShuffle (decide (a > 0) || r) r (max 2 (ps.length / 3))
          (max 1 (ps.length / 4)) c ps).1) = _
  rw [tierShuffleIf_idShuffle]

theorem distribSnake_teams_spec {k : Nat} (hk : 1 ≤ k) (pl : List Player) :
    (distribPlayers (snakeIdx k) (List.replicate k []) 0 pl).length = k
    ∧ (∀ t, ((distribPlayers (snakeIdx k) (List.replicate k []) 0 pl).getD t []).length ≤ 4)
    ∧ ((distribPlayers (snakeIdx k) (List.replicate k []) 0 pl).flatten : Multiset Player)
        ≤ (pl : Multiset Player)
    ∧ (pl.length ≤ 4 * k →
        ((distribPlayers (snakeIdx k) (List.replicate k []) 0 pl).flatten : Multiset Player)
          = (pl : Multiset Player)) := by
  have hrep : ∀ t, ((List.replicate k ([] : List Player)).getD t []).length ≤ 4 := by
    intro t
    rw [getD_replicate_nil]
    simp
  refine ⟨?_, ?_, ?_, ?_⟩
  · rw [distribPlayers_length, List.length_replicate]
  · exact distribPlayers_getD_le _ pl _ 0 hrep
  · have h := distribPlayers_flatten_le (snakeIdx k) pl (List.replicate k []) 0
    rw [flatten_replicate_nil] at h
    simpa using h
  · intro hcap
    have h := distribPlayers_complete 0 (snakeIdx_roundIdx hk) hk (by omega) pl
      (List.replicate k []) 0 (List.length_replicate k []) ?_ (by omega)
    · have h1 := h.1
      rw [flatten_replicate_nil] at h1
      simpa using h1
    · intro t _
      rw [getD_replicate_nil, cntF_zero]
      rfl

theorem attemptBody_teams {sh : Shuffle} (hsh : IsShuffle sh) (ps : List Player)
    {k : Nat} (n : Nat) (r : Bool) (hk : 1 ≤ k) (a c : Nat) :
    ((attemptBody sh ps k n r a c).1).length = k
    ∧ (∀ t, (((attemptBody sh ps k n r a c).1).getD t []).length ≤ 4)
    ∧ ((((attemptBody sh ps k n r a c).1).flatten : Multiset Player) ≤ (ps : Multiset Player))
    ∧ (ps.length ≤ 4 * k →
        (((attemptBody sh ps k n r a c).1).flatten : Multiset Player) = (ps : Multiset Player)) := by
  obtain ⟨pl, hperm, heq⟩ := attemptBody_spec hsh ps k n r a c
  rw [heq]
  obtain ⟨hlen0, hle0, hsub0, hcomp0⟩ := distribSnake_teams_spec hk pl
  have hrel := localOptimize_rel k (if n ≤ 8 then 200 else 100)
    (distribPlayers (snakeIdx k) (List.replicate k []) 0 pl)
  have hmps : (pl : Multiset Player) = (ps : Multiset Player) := Multiset.coe_eq_coe.mpr hperm
  refine ⟨?_, ?_, ?_, ?_⟩
  · rw [hrel.1, hlen0]
  · intro t
    rw [hrel.2.1 t]
    exact hle0 t
  · rw [hrel.2.2, ← hmps]
    exact hsub0
  · intro hcap
    rw [hrel.2.2, ← hmps]
    exact hcomp0 (by rw [hperm.length_eq]; exact hcap)

/-! ## Best-of-attempts fold -/

theorem calculate_variance_lt_top {T : List (List Player)} (h : T ≠ []) :
    calculate_variance T < ⊤ := by
  unfold calculate_variance
  rw [if_neg (by simpa using h)]
  exact WithTop.coe_lt_top _

theorem bestStep_eq (body : Nat → Nat → List (List Player) × Nat)
    (st : (Option (List (List Player)) × WithTop ℚ) × Nat) (a : Nat) :
    bestStep body st a
      = if calculate_variance (body a st.2).1 < st.1.2
        then ((some (body a st.2).1, calculate_variance (body a st.2).1), (body a st.2).2)
        else (st.1, (body a st.2).2) := by
  unfold bestStep
  cases body a st.2
  rfl

theorem bestStep_prop (body : Nat → Nat → List (List Player) × Nat)
    (P : List (List Player) → Prop) (hbody : ∀ a c, P (body a c).1)
    (st : (Option (List (List Player)) × WithTop ℚ) × Nat) (a : Nat)
    (hst : ∀ bt, st.1.1 = some bt → P bt) :
    ∀ bt, (bestStep body st a).1.1 = some bt → P bt := by
  intro bt hbt
  rw [bestStep_eq] at hbt
  by_cases hlt : calculate_variance (body a st.2).1 < st.1.2
  · rw [if_pos hlt] at hbt
    simp only [Option.some.injEq] at hbt
    rw [← hbt]
    exact hbody a st.2
  · rw [if_neg hlt] at hbt
    exact hst bt hbt

theorem foldl_bestStep_prop (body : Nat → Nat → List (List Player) × Nat)
    (P : List (List Player) → Prop) (hbody : ∀ a c, P (body a c).1) (l : List Nat)
    (st : (Option (List (List Player)) × WithTop ℚ) × Nat)
    (hst : ∀ bt, st.1.1 = some bt → P bt) :
    ∀ bt, (l.foldl (bestStep body) st).1.1 = some bt → P bt :=
  foldl_preserve (fun s => ∀ bt, s.1.1 = some bt → P bt) (bestStep body) l st hst
    (fun s a _ hs => bestStep_prop body P hbody s a hs)

theorem bestStep_isSome (body : Nat → Nat → List (List Player) × Nat)
    (hbody : ∀ a c, (body a c).1 ≠ [])
    (st : (Option (List (List Player)) × WithTop ℚ) × Nat) (a : Nat)
    (hst : st.1.1.isSome ∨ st.1.2 = ⊤) :
    (bestStep body st a).1.1.isSome := by
  rw [bestStep_eq]
  by_cases hlt : calculate_variance (body a st.2).1 < st.1.2
  · rw [if_pos hlt]
    rfl
  · rw [if_neg hlt]
    rcases hst with h | h
    · exact h
    · exfalso
      apply hlt
      rw [h]
      exact calculate_variance_lt_top (hbody a st.2)

theorem foldl_bestStep_isSome (body : Nat → Nat → List (List Player) × Nat)
    (hbody : ∀ a c, (body a c).1 ≠ []) (l : List Nat)
    (st : (Option (List (List Player)) × WithTop ℚ) × Nat)
    (hst : st.1.1.isSome ∨ st.1.2 = ⊤) :
    l ≠ [] → (l.foldl (bestStep body) st).1.1.isSome := by
  intro hne
  cases l with
  | nil => exact absurd rfl hne
  | cons a l =>
    rw [List.foldl_cons]
    refine foldl_preserve (fun s => s.1.1.isSome) (bestStep body) l _ ?_ ?_
    · exact bestStep_isSome body hbody st a hst
    · intro s b _ hs
      exact bestStep_isSome body hbody s b (Or.inl hs)

theorem bestStep_var_le (body : Nat → Nat → List (List Player) × Nat)
    (st : (Option (List (List Player)) × WithTop ℚ) × Nat) (a : Nat) :
    (bestStep body st a).1.2 ≤ st.1.2 := by
  rw [bestStep_eq]
  by_cases hlt : calculate_variance (body a st.2).1 < st.1.2
  · rw [if_pos hlt]
    exact le_of_lt hlt
  · rw [if_neg hlt]

theorem foldl_bestStep_var_le (body : Nat → Nat → List (List Player) × Nat) (l : List Nat)
    (st : (Option (List (List Player)) × WithTop ℚ) × Nat) :
    (l.foldl (bestStep body) st).1.2 ≤ st.1.2 :=
  foldl_preserve (fun s => s.1.2 ≤ st.1.2) (bestStep body) l st le_rfl
    (fun s a _ hs => le_trans (bestStep_var_le body s a) hs)

theorem bestStep_keeps_on_tie (body : Nat → Nat → List (List Player) × Nat)
    (st : (Option (List (List Player)) × WithTop ℚ) × Nat) (a : Nat)
    (hge : ¬ calculate_variance (body a st.2).1 < st.1.2) :
    (bestStep body st a).1 = st.1 := by
  rw [bestStep_eq, if_neg hge]

theorem bestStep_tracks (body : Nat → Nat → List (List Player) × Nat)
    (st : (Option (List (List Player)) × WithTop ℚ) × Nat) (a : Nat)
    (hst : ∀ bt, st.1.1 = some bt → st.1.2 = calculate_variance bt) :
    ∀ bt, (bestStep body st a).1.1 = some bt →
      (bestStep body st a).1.2 = calculate_variance bt := by
  intro bt hbt
  rw [bestStep_eq] at hbt ⊢
  by_cases hlt : calculate_variance (body a st.2).1 < st.1.2
  · rw [if_pos hlt] at hbt ⊢
    simp only [Option.some.injEq] at hbt
    rw [← hbt]
  · rw [if_neg hlt] at hbt ⊢
    exact hst bt hbt

theorem foldl_bestStep_tracks (body : Nat → Nat → List (List Player) × Nat) (l : List Nat)
    (st : (Option (List (List Player)) × WithTop ℚ) × Nat)
    (hst : ∀ bt, st.1.1 = some bt → st.1.2 = calculate_variance bt) :
    ∀ bt, (l.foldl (bestStep body) st).1.1 = some bt →
      (l.foldl (bestStep body) st).1.2 = calculate_variance bt :=
  foldl_preserve (fun s => ∀ bt, s.1.1 = some bt → s.1.2 = calculate_variance bt)
    (bestStep body) l st hst (fun s a _ hs => bestStep_tracks body s a hs)

/-! ## Properties of the four generators -/

theorem mem_getD (T : List (List Player)) (team : List Player) (h : team ∈ T) :
    ∃ t, t < T.length ∧ T.getD t [] = team := by
  obtain ⟨n, hn, heq⟩ := List.mem_iff_getElem.mp h
  refine ⟨n, hn, ?_⟩
  rw [List.getD_eq_getElem?_getD, List.getElem?_eq_getElem hn]
  exact heq

theorem generate_optimal_teams_cases {sh : Shuffle} (hsh : IsShuffle sh)
    (players : List Player) {k mi : Nat} (r : Bool)
    (h2 : 2 ≤ players.length) (hk : 1 ≤ k) (hmi : 1 ≤ mi) :
    ∃ bt, ((List.range (min mi (if players.length ≤ 12 then 1000 else 500))).foldl
        (bestStep (attemptBody sh (sortBySkill players) k players.length r))
        ((none, ⊤), 0)).1.1 = some bt
      ∧ generate_optimal_teams sh players k mi r = bt.filter (fun team => !team.isEmpty) := by
  have hsome : ((List.range (min mi (if players.length ≤ 12 then 1000 else 500))).foldl
      (bestStep (attemptBody sh (sortBySkill players) k players.length r))
      ((none, ⊤), 0)).1.1.isSome := by
    refine foldl_bestStep_isSome _ ?_ _ _ (Or.inr rfl) ?_
    · intro a c
      have hlen := (attemptBody_teams hsh (sortBySkill players) players.length r hk a c).1
      intro hnil
      rw [hnil] at hlen
      simp at hlen
      omega
    · have : 1 ≤ min mi (if players.length ≤ 12 then 1000 else 500) := by
        split <;> omega
      intro hnil
      rw [List.range_eq_nil] at hnil
      omega
  obtain ⟨bt, hbt⟩ := Option.isSome_iff_exists.mp hsome
  refine ⟨bt, hbt, ?_⟩
  unfold generate_optimal_teams
  rw [if_neg (by simp only [Bool.or_eq_true, decide_eq_true_eq]; omega)]
  exact congrArg
    (fun o : Option (List (List Player)) => match o with
      | some best_teams => List.filter (fun team : List Player => !team.isEmpty) best_teams
      | none => ([] : List (List Player))) hbt

theorem generate_optimal_teams_props {sh : Shuffle} (hsh : IsShuffle sh)
    (players : List Player) (k mi : Nat) (r : Bool)
    (h2 : 2 ≤ players.length) (hk : 1 ≤ k) (hmi : 1 ≤ mi) :
    (players.length ≤ 4 * k →
      List.Perm (generate_optimal_teams sh players k mi r).flatten players)
    ∧ (∀ team ∈ generate_optimal_teams sh players k mi r,
        1 ≤ team.length ∧ team.length ≤ 4)
    ∧ (∀ team ∈ generate_optimal_teams sh players k mi r, ∀ p ∈ team, p ∈ players)
    ∧ (generate_optimal_teams sh players k mi r).length ≤ k := by
  obtain ⟨bt, hbt, heq⟩ := generate_optimal_teams_cases hsh players r h2 hk hmi
  have hps : ((sortBySkill players : List Player) : Multiset Player)
      = (players : Multiset Player) := Multiset.coe_eq_coe.mpr (sortBySkill_perm players)
  have hbtP : bt.length = k ∧ (∀ t, (bt.getD t []).length ≤ 4)
      ∧ ((bt.flatten : Multiset Player) ≤ (players : Multiset Player))
      ∧ (players.length ≤ 4 * k → (bt.flatten : Multiset Player) = (players : Multiset Player)) := by
    have := foldl_bestStep_prop
      (attemptBody sh (sortBySkill players) k players.length r)
      (fun T => T.length = k ∧ (∀ t, (T.getD t []).length ≤ 4)
        ∧ ((T.flatten : Multiset Player) ≤ (players : Multiset Player))
        ∧ (players.length ≤ 4 * k →
            (T.flatten : Multiset Player) = (players : Multiset Player)))
      ?_ _ ((none, ⊤), 0) (by intro b hb; exact absurd hb (by simp)) bt hbt
    · exact this
    · intro a c
      obtain ⟨hl, h4, hsub, hcomp⟩ :=
        attemptBody_teams hsh (sortBySkill players) players.length r hk a c
      refine ⟨hl, h4, by rw [← hps]; exact hsub, fun hcap => ?_⟩
      rw [← hps]
      exact hcomp (by rw [(sortBySkill_perm players).length_eq]; exact hcap)
  have hflat : (generate_optimal_teams sh players k mi r).flatten = bt.flatten := by
    rw [heq, flatten_filter_nonempty]
  refine ⟨?_, ?_, ?_, ?_⟩
  · intro hcap
    have := hbtP.2.2.2 hcap
    rw [← hflat] at this
    exact Multiset.coe_eq_coe.mp this
  · intro team hteam
    rw [heq] at hteam
    have hmem := List.mem_filter.mp hteam
    have hne : team ≠ [] := by
      intro hnil
      rw [hnil] at hmem
      simp at hmem
    obtain ⟨t, ht, hgetD⟩ := mem_getD bt team hmem.1
    constructor
    · cases team with
      | nil => exact absurd rfl hne
      | cons x xs => simp
    · rw [← hgetD]
      exact hbtP.2.1 t
  · intro team hteam p hp
    rw [heq] at hteam
    have hmem := List.mem_filter.mp hteam
    have hpf : p ∈ bt.flatten := by
      rw [List.mem_flatten]
      exact ⟨team, hmem.1, hp⟩
    have := Multiset.mem_of_le hbtP.2.2.1 (by simpa using hpf)
    simpa using this
  · rw [heq]
    calc (bt.filter (fun team => !team.isEmpty)).length ≤ bt.length :=
      List.length_filter_le _ _
    _ = k := hbtP.1

theorem generate_random_teams_props {sh : Shuffle} (hsh : IsShuffle sh)
    (players : List Player) {k : Nat} (h2 : 2 ≤ players.length) (hk : 1 ≤ k) :
    (players.length ≤ 4 * k →
      List.Perm (generate_random_teams sh players k).flatten players)
    ∧ (∀ team ∈ generate_random_teams sh players k, 1 ≤ team.length ∧ team.length ≤ 4)
    ∧ (∀ team ∈ generate_random_teams sh players k, ∀ p ∈ team, p ∈ players)
    ∧ (generate_random_teams sh players k).length ≤ k := by
  have hperm : List.Perm (sh 0 players) players := hsh 0 players
  have hmps : ((sh 0 players : List Player) : Multiset Player) = (players : Multiset Player) :=
    Multiset.coe_eq_coe.mpr hperm
  have heq : generate_random_teams sh players k
      = (distribPlayers (fun i => i % k) (List.replicate k []) 0 (sh 0 players)).filter
          (fun team => !team.isEmpty) := by
    unfold generate_random_teams
    rw [if_neg (by simp only [Bool.or_eq_true, decide_eq_true_eq]; omega)]
  have hrep : ∀ t, ((List.replicate k ([] : List Player)).getD t []).length ≤ 4 := by
    intro t
    rw [getD_replicate_nil]
    simp
  have hlen : (distribPlayers (fun i => i % k) (List.replicate k []) 0 (sh 0 players)).length
      = k := by
    rw [distribPlayers_length, List.length_replicate]
  have h4 : ∀ t, ((distribPlayers (fun i => i % k) (List.replicate k []) 0
      (sh 0 players)).getD t []).length ≤ 4 :=
    distribPlayers_getD_le _ _ _ 0 hrep
  have hsub : ((distribPlayers (fun i => i % k) (List.replicate k []) 0
      (sh 0 players)).flatten : Multiset Player) ≤ (players : Multiset Player) := by
    have h := distribPlayers_flatten_le (fun i => i % k) (sh 0 players)
      (List.replicate k []) 0
    rw [flatten_replicate_nil, hmps] at h
    simpa using h
  have hflat : (generate_random_teams sh players k).flatten
      = (distribPlayers (fun i => i % k) (List.replicate k []) 0 (sh 0 players)).flatten := by
    rw [heq, flatten_filter_nonempty]
  refine ⟨?_, ?_, ?_, ?_⟩
  · intro hcap
    have h := distribPlayers_complete 0 (modIdx_roundIdx hk) hk (by omega) (sh 0 players)
      (List.replicate k []) 0 (List.length_replicate k []) ?_ ?_
    · have h1 := h.1
      rw [flatten_replicate_nil] at h1
      apply Multiset.coe_eq_coe.mp
      rw [hflat, h1, hmps]
      simp
    · intro t _
      rw [getD_replicate_nil, cntF_zero]
      rfl
    · rw [hperm.length_eq]
      omega
  · intro team hteam
    rw [heq] at hteam
    have hmem := List.mem_filter.mp hteam
    have hne : team ≠ [] := by
      intro hnil
      rw [hnil] at hmem
      simp at hmem
    obtain ⟨t, ht, hgetD⟩ := mem_getD _ team hmem.1
    constructor
    · cases team with
      | nil => exact absurd rfl hne
      | cons x xs => simp
    · rw [← hgetD]
      exact h4 t
  · intro team hteam p hp
    rw [heq] at hteam
    have hmem := List.mem_filter.mp hteam
    have hpf : p ∈ (distribPlayers (fun i => i % k) (List.replicate k []) 0
        (sh 0 players)).flatten := by
      rw [List.mem_flatten]
      exact ⟨team, hmem.1, hp⟩
    have := Multiset.mem_of_le hsub (by simpa using hpf)
    simpa using this
  · rw [heq]
    calc ((distribPlayers (fun i => i % k) (List.replicate k []) 0
        (sh 0 players)).filter (fun team => !team.isEmpty)).length
        ≤ (distribPlayers (fun i => i % k) (List.replicate k []) 0 (sh 0 players)).length :=
      List.length_filter_le _ _
    _ = k := hlen

/-! ## Planner lemmas -/

theorem reduceTeams_le (n : Nat) : ∀ f, reduceTeams n f ≤ f
  | 0 => le_rfl
  | 1 => le_rfl
  | f + 2 => by
    unfold reduceTeams
    split
    · exact le_trans (reduceTeams_le n (f + 1)) (by omega)
    · exact le_rfl

theorem one_le_reduceTeams (n : Nat) : ∀ f, 1 ≤ f → 1 ≤ reduceTeams n f
  | 0, h => by omega
  | 1, _ => le_rfl
  | f + 2, _ => by
    unfold reduceTeams
    split
    · exact one_le_reduceTeams n (f + 1) (by omega)
    · omega

theorem growTeamsAux_le (n : Nat) : ∀ gas f, f ≤ 5 → growTeamsAux n gas f ≤ 5
  | 0, f, h => h
  | gas + 1, f, h => by
    unfold growTeamsAux
    split
    · rename_i hcond
      exact growTeamsAux_le n gas (f + 1) (by omega)
    · exact h

theorem le_growTeamsAux (n : Nat) : ∀ gas f, f ≤ growTeamsAux n gas f
  | 0, f => le_rfl
  | gas + 1, f => by
    unfold growTeamsAux
    split
    · exact le_trans (by omega) (le_growTeamsAux n gas (f + 1))
    · exact le_rfl

theorem one_le_calculate_optimal_teams (n : Nat) : 1 ≤ calculate_optimal_teams n := by
  unfold calculate_optimal_teams
  split
  · exact le_rfl
  · split
    · omega
    · split
      · omega
      · split <;> omega

theorem calculate_optimal_teams_le (n : Nat) : calculate_optimal_teams n ≤ 5 := by
  unfold calculate_optimal_teams
  split
  · omega
  · split
    · omega
    · split
      · omega
      · split <;> omega

theorem one_le_plannedTeams (n : Nat) : 1 ≤ plannedTeams n := by
  unfold plannedTeams growTeams
  have h1 : 1 ≤ reduceTeams n (min 5 (calculate_optimal_teams n)) :=
    one_le_reduceTeams n _ (by have := one_le_calculate_optimal_teams n; omega)
  calc 1 ≤ reduceTeams n (min 5 (calculate_optimal_teams n)) := h1
  _ ≤ _ := le_growTeamsAux n _ _

theorem plannedTeams_le (n : Nat) : plannedTeams n ≤ 5 := by
  unfold plannedTeams growTeams
  refine growTeamsAux_le n _ _ ?_
  calc reduceTeams n (min 5 (calculate_optimal_teams n)) ≤ min 5 (calculate_optimal_teams n) :=
    reduceTeams_le n _
  _ ≤ 5 := by omega

theorem plannedTeams_cap : ∀ n, n < 21 → 2 ≤ n → n ≤ 4 * plannedTeams n := by
  intro n hn h2
  interval_cases n <;>
    norm_num [plannedTeams, growTeams, growTeamsAux, reduceTeams, calculate_optimal_teams]

theorem balance_teams_eq (sh : Shuffle) (players : List Player) (n : Nat) (r : Bool)
    (h2 : 2 ≤ players.length) :
    balance_teams sh players n r
      = if r then generate_random_teams sh players (plannedTeams players.length)
        else generate_optimal_teams sh players (plannedTeams players.length) 10000 false := by
  unfold balance_teams
  rw [if_neg (by omega)]
  show (if plannedTeams players.length < 1 then ([] : List (List Player))
    else if r then generate_random_teams sh players (plannedTeams players.length)
    else generate_optimal_teams sh players (plannedTeams players.length) 10000 false) = _
  rw [if_neg (by have := one_le_plannedTeams players.length; omega)]

/-! ## Region-mode generators -/

theorem attemptBodyR_spec {sh : Shuffle} (hsh : IsShuffle sh) (rs os : List Player)
    (k : Nat) (r : Bool) (a c : Nat) :
    ∃ (rl ar : List Player),
      List.Perm rl rs ∧ List.Perm ar (rl.drop k ++ os) ∧
      (attemptBodyR sh rs os k r a c).1
        = localOptimizeR k (if ar.length ≤ 8 then 150 else 75)
            (distribPlayers (snakeIdx k) (seedTeams k rl) 0 ar) := by
  have htier : ∀ (cond rb : Bool) (tsA tsB cc : Nat) (l : List Player),
      List.Perm (tierShuffleIf sh cond rb tsA tsB cc l).1 l :=
    fun cond rb tsA tsB cc l => tierShuffleIf_perm hsh cond rb tsA tsB cc l
  refine ⟨(tierShuffleIf sh (decide (a > 0) || r) r (max 2 (rs.length / 2))
      (max 1 (rs.length / 3)) c rs).1,
    (tierShuffleIf sh
      ((decide (a > 0)
        && !((((tierShuffleIf sh (decide (a > 0) || r) r (max 2 (rs.length / 2))
          (max 1 (rs.length / 3)) c rs).1.drop k) ++ os).isEmpty)) || r) r
      (max 2 ((((tierShuffleIf sh (decide (a > 0) || r) r (max 2 (rs.length / 2))
          (max 1 (rs.length / 3)) c rs).1.drop k) ++ os).length / 3))
      (max 1 ((((tierShuffleIf sh (decide (a > 0) || r) r (max 2 (rs.length / 2))
          (max 1 (rs.length / 3)) c rs).1.drop k) ++ os).length / 4))
      (tierShuffleIf sh (decide (a > 0) || r) r (max 2 (rs.length / 2))
          (max 1 (rs.length / 3)) c rs).2
      ((((tierShuffleIf sh (decide (a > 0) || r) r (max 2 (rs.length / 2))
          (max 1 (rs.length / 3)) c rs).1.drop k) ++ os))).1,
    htier _ _ _ _ _ _, htier _ _ _ _ _ _, rfl⟩

theorem seeded_distrib_teams_spec {F : Nat → Nat} {k : Nat} (hF : RoundIdx F k)
    (hk : 1 ≤ k) (rl ar : List Player) (hkr : k ≤ rl.length) :
    (distribPlayers F (seedTeams k rl) 0 ar).length = k
    ∧ (∀ t, ((distribPlayers F (seedTeams k rl) 0 ar).getD t []).length ≤ 4)
    ∧ ((distribPlayers F (seedTeams k rl) 0 ar).flatten : Multiset Player)
        ≤ ((rl.take k : List Player) : Multiset Player) + (ar : Multiset Player)
    ∧ (ar.length ≤ 3 * k →
        ((distribPlayers F (seedTeams k rl) 0 ar).flatten : Multiset Player)
          = ((rl.take k : List Player) : Multiset Player) + (ar : Multiset Player))
    ∧ (∀ t, t < k → ((distribPlayers F (seedTeams k rl) 0 ar).getD t []).head?
        = some (rl.getD t default)) := by
  have hseedle : ∀ t, ((seedTeams k rl).getD t []).length ≤ 4 := by
    intro t
    by_cases ht : t < k
    · rw [seedTeams_getD k rl hkr ht]
      simp
    · rw [getD_of_le _ (by rw [seedTeams_length]; omega)]
      simp
  have hseedprof : ∀ t, t < k → ((seedTeams k rl).getD t []).length = 1 + cntF F t 0 := by
    intro t ht
    rw [seedTeams_getD k rl hkr ht, cntF_zero]
    rfl
  have hseedne : ∀ t, t < (seedTeams k rl).length → (seedTeams k rl).getD t [] ≠ [] := by
    intro t ht
    rw [seedTeams_length] at ht
    rw [seedTeams_getD k rl hkr ht]
    simp
  refine ⟨?_, ?_, ?_, ?_, ?_⟩
  · rw [distribPlayers_length, seedTeams_length]
  · exact distribPlayers_getD_le _ ar _ 0 hseedle
  · have h := distribPlayers_flatten_le F ar (seedTeams k rl) 0
    rw [seedTeams_flatten k rl hkr] at h
    exact h
  · intro hcap
    have h := distribPlayers_complete 1 hF hk (by omega) ar
      (seedTeams k rl) 0 (seedTeams_length k rl) hseedprof (by omega)
    have h1 := h.1
    rw [seedTeams_flatten k rl hkr] at h1
    exact h1
  · intro t ht
    rw [distribPlayers_head F ar (seedTeams k rl) 0 hseedne t]
    rw [seedTeams_getD k rl hkr ht]
    rfl

theorem attemptBodyR_teams {sh : Shuffle} (hsh : IsShuffle sh) (rs os : List Player)
    {k : Nat} (r : Bool) (hk : 1 ≤ k) (hkr : k ≤ rs.length) (a c : Nat) :
    ((attemptBodyR sh rs os k r a c).1).length = k
    ∧ (∀ t, (((attemptBodyR sh rs os k r a c).1).getD t []).length ≤ 4)
    ∧ ((((attemptBodyR sh rs os k r a c).1).flatten : Multiset Player)
        ≤ (rs : Multiset Player) + (os : Multiset Player))
    ∧ (rs.length + os.length ≤ 4 * k →
        (((attemptBodyR sh rs os k r a c).1).flatten : Multiset Player)
          = (rs : Multiset Player) + (os : Multiset Player))
    ∧ (∀ t, t < k → ∃ p, (((attemptBodyR sh rs os k r a c).1).getD t []).head? = some p
        ∧ p ∈ rs) := by
  obtain ⟨rl, ar, hp1, hp2, heq⟩ := attemptBodyR_spec hsh rs os k r a c
  have hkr' : k ≤ rl.length := by rw [hp1.length_eq]; exact hkr
  obtain ⟨hlen0, hle0, hsub0, hcomp0, hhead0⟩ :=
    seeded_distrib_teams_spec (snakeIdx_roundIdx hk) hk rl ar hkr'
  have hrel := localOptimizeR_rel k (if ar.length ≤ 8 then 150 else 75)
    (distribPlayers (snakeIdx k) (seedTeams k rl) 0 ar)
  have hsplit : ((rl.take k : List Player) : Multiset Player)
      + ((rl.drop k ++ os : List Player) : Multiset Player)
      = (rs : Multiset Player) + (os : Multiset Player) := by
    rw [coe_append_multiset]
    have htd : ((rl.take k : List Player) : Multiset Player)
        + ((rl.drop k : List Player) : Multiset Player)
        = ((rl : List Player) : Multiset Player) := by
      rw [← coe_append_multiset, List.take_append_drop]
    have hr : ((rl : List Player) : Multiset Player) = (rs : Multiset Player) :=
      Multiset.coe_eq_coe.mpr hp1
    calc ((rl.take k : List Player) : Multiset Player)
        + (((rl.drop k : List Player) : Multiset Player) + (os : Multiset Player))
        = (((rl.take k : List Player) : Multiset Player)
          + ((rl.drop k : List Player) : Multiset Player)) + (os : Multiset Player) := by abel
    _ = (rs : Multiset Player) + (os : Multiset Player) := by rw [htd, hr]
  have har : ((ar : List Player) : Multiset Player)
      = ((rl.drop k ++ os : List Player) : Multiset Player) := Multiset.coe_eq_coe.mpr hp2
  rw [heq]
  refine ⟨?_, ?_, ?_, ?_, ?_⟩
  · rw [hrel.1.1, hlen0]
  · intro t
    rw [hrel.1.2.1 t]
    exact hle0 t
  · rw [hrel.1.2.2, ← hsplit, ← har]
    exact hsub0
  · intro hcap
    rw [hrel.1.2.2, ← hsplit, ← har]
    refine hcomp0 ?_
    have h1 : ar.length = (rl.drop k ++ os).length := hp2.length_eq
    have h2 : rl.length = rs.length := hp1.length_eq
    simp only [List.length_append, List.length_drop] at h1
    omega
  · intro t ht
    refine ⟨rl.getD t default, ?_, ?_⟩
    · rw [hrel.2 t]
      exact hhead0 t ht
    · have hmem : rl.getD t default ∈ rl := by
        rw [List.getD_eq_getElem?_getD, List.getElem?_eq_getElem (by omega)]
        exact List.getElem_mem _
      exact hp1.mem_iff.mp hmem


theorem generate_optimal_teams_with_region_cases {sh : Shuffle} (hsh : IsShuffle sh)
    (rs os : List Player) {k : Nat} (r : Bool) (hk : 1 ≤ k) (hkr : k ≤ rs.length) :
    ∃ bt, ((List.range (min 500 (if (rs ++ os).length > 12 then 100 else 200))).foldl
        (bestStep (attemptBodyR sh (sortBySkill rs) (sortBySkill os) k r))
        ((none, ⊤), 0)).1.1 = some bt
      ∧ generate_optimal_teams_with_region sh rs os k r
          = bt.filter (fun team => !team.isEmpty) := by
  have hkr' : k ≤ (sortBySkill rs).length := by
    rw [(sortBySkill_perm rs).length_eq]
    exact hkr
  have hsome : ((List.range (min 500 (if (rs ++ os).length > 12 then 100 else 200))).foldl
      (bestStep (attemptBodyR sh (sortBySkill rs) (sortBySkill os) k r))
      ((none, ⊤), 0)).1.1.isSome := by
    refine foldl_bestStep_isSome _ ?_ _ _ (Or.inr rfl) ?_
    · intro a c
      have hlen := (attemptBodyR_teams hsh (sortBySkill rs) (sortBySkill os) r hk hkr' a c).1
      intro hnil
      rw [hnil] at hlen
      simp at hlen
      omega
    · have : 1 ≤ min 500 (if (rs ++ os).length > 12 then 100 else 200) := by
        split <;> omega
      intro hnil
      rw [List.range_eq_nil] at hnil
      omega
  obtain ⟨bt, hbt⟩ := Option.isSome_iff_exists.mp hsome
  refine ⟨bt, hbt, ?_⟩
  unfold generate_optimal_teams_with_region
  rw [if_neg (by
    simp only [Bool.or_eq_true, decide_eq_true_eq, List.isEmpty_eq_true]
    push_neg
    refine ⟨by omega, ?_⟩
    intro hnil
    rw [hnil] at hkr
    simp at hkr
    omega)]
  exact congrArg
    (fun o : Option (List (List Player)) => match o with
      | some best_teams => List.filter (fun team : List Player => !team.isEmpty) best_teams
      | none => ([] : List (List Player))) hbt

theorem generate_optimal_teams_with_region_props {sh : Shuffle} (hsh : IsShuffle sh)
    (rs os : List Player) {k : Nat} (r : Bool) (hk : 1 ≤ k) (hkr : k ≤ rs.length) :
    (rs.length + os.length ≤ 4 * k →
      List.Perm (generate_optimal_teams_with_region sh rs os k r).flatten (rs ++ os))
    ∧ (∀ team ∈ generate_optimal_teams_with_region sh rs os k r,
        1 ≤ team.length ∧ team.length ≤ 4)
    ∧ (∀ team ∈ generate_optimal_teams_with_region sh rs os k r, ∀ p ∈ team, p ∈ rs ++ os)
    ∧ (generate_optimal_teams_with_region sh rs os k r).length ≤ k
    ∧ (∀ team ∈ generate_optimal_teams_with_region sh rs os k r,
        ∃ p, team.head? = some p ∧ p ∈ rs) := by
  obtain ⟨bt, hbt, heq⟩ := generate_optimal_teams_with_region_cases hsh rs os r hk hkr
  have hkr' : k ≤ (sortBySkill rs).length := by
    rw [(sortBySkill_perm rs).length_eq]
    exact hkr
  have hrs : ((sortBySkill rs : List Player) : Multiset Player) = (rs : Multiset Player) :=
    Multiset.coe_eq_coe.mpr (sortBySkill_perm rs)
  have hos : ((sortBySkill os : List Player) : Multiset Player) = (os : Multiset Player) :=
    Multiset.coe_eq_coe.mpr (sortBySkill_perm os)
  have hbtP : bt.length = k ∧ (∀ t, (bt.getD t []).length ≤ 4)
      ∧ ((bt.flatten : Multiset Player) ≤ (rs : Multiset Player) + (os : Multiset Player))
      ∧ (rs.length + os.length ≤ 4 * k →
          (bt.flatten : Multiset Player) = (rs : Multiset Player) + (os : Multiset Player))
      ∧ (∀ t, t < k → ∃ p, ((bt.getD t []).head? = some p ∧ p ∈ rs)) := by
    refine foldl_bestStep_prop
      (attemptBodyR sh (sortBySkill rs) (sortBySkill os) k r)
      (fun T => T.length = k ∧ (∀ t, (T.getD t []).length ≤ 4)
        ∧ ((T.flatten : Multiset Player) ≤ (rs : Multiset Player) + (os : Multiset Player))
        ∧ (rs.length + os.length ≤ 4 * k →
            (T.flatten : Multiset Player) = (rs : Multiset Player) + (os : Multiset Player))
        ∧ (∀ t, t < k → ∃ p, ((T.getD t []).head? = some p ∧ p ∈ rs)))
      ?_ _ ((none, ⊤), 0) (by intro b hb; exact absurd hb (by simp)) bt hbt
    intro a c
    obtain ⟨hl, h4, hsub, hcomp, hhead⟩ :=
      attemptBodyR_teams hsh (sortBySkill rs) (sortBySkill os) r hk hkr' a c
    refine ⟨hl, h4, ?_, ?_, ?_⟩
    · rw [← hrs, ← hos]
      exact hsub
    · intro hcap
      rw [← hrs, ← hos]
      refine hcomp ?_
      rw [(sortBySkill_perm rs).length_eq, (sortBySkill_perm os).length_eq]
      exact hcap
    · intro t ht
      obtain ⟨p, hp, hmem⟩ := hhead t ht
      exact ⟨p, hp, (sortBySkill_perm rs).mem_iff.mp hmem⟩
  have hflat : (generate_optimal_teams_with_region sh rs os k r).flatten = bt.flatten := by
    rw [heq, flatten_filter_nonempty]
  refine ⟨?_, ?_, ?_, ?_, ?_⟩
  · intro hcap
    have h := hbtP.2.2.2.1 hcap
    rw [← hflat] at h
    apply Multiset.coe_eq_coe.mp
    rw [h, coe_append_multiset]
  · intro team hteam
    rw [heq] at hteam
    have hmem := List.mem_filter.mp hteam
    have hne : team ≠ [] := by
      intro hnil
      rw [hnil] at hmem
      simp at hmem
    obtain ⟨t, ht, hgetD⟩ := mem_getD bt team hmem.1
    constructor
    · cases team with
      | nil => exact absurd rfl hne
      | cons x xs => simp
    · rw [← hgetD]
      exact hbtP.2.1 t
  · intro team hteam p hp
    rw [heq] at hteam
    have hmem := List.mem_filter.mp hteam
    have hpf : p ∈ bt.flatten := by
      rw [List.mem_flatten]
      exact ⟨team, hmem.1, hp⟩
    have := Multiset.mem_of_le hbtP.2.2.1 (by simpa using hpf)
    rw [← coe_append_multiset] at this
    simpa using this
  · rw [heq]
    calc (bt.filter (fun team => !team.isEmpty)).length ≤ bt.length :=
      List.length_filter_le _ _
    _ = k := hbtP.1
  · intro team hteam
    rw [heq] at hteam
    have hmem := List.mem_filter.mp hteam
    obtain ⟨t, ht, hgetD⟩ := mem_getD bt team hmem.1
    obtain ⟨p, hp, hpm⟩ := hbtP.2.2.2.2 t (by rw [← hbtP.1]; exact ht)
    exact ⟨p, by rw [← hgetD]; exact hp, hpm⟩

theorem generate_random_teams_with_region_props {sh : Shuffle} (hsh : IsShuffle sh)
    (rs os : List Player) {k : Nat} (hk : 1 ≤ k) (hkr : k ≤ rs.length) :
    (rs.length + os.length ≤ 4 * k →
      List.Perm (generate_random_teams_with_region sh rs os k).flatten (rs ++ os))
    ∧ (∀ team ∈ generate_random_teams_with_region sh rs os k,
        1 ≤ team.length ∧ team.length ≤ 4)
    ∧ (∀ team ∈ generate_random_teams_with_region sh rs os k, ∀ p ∈ team, p ∈ rs ++ os)
    ∧ (generate_random_teams_with_region sh rs os k).length ≤ k
    ∧ (∀ team ∈ generate_random_teams_with_region sh rs os k,
        ∃ p, team.head? = some p ∧ p ∈ rs) := by
  have hp0 : List.Perm (sh 0 rs) rs := hsh 0 rs
  have hkr0 : k ≤ (sh 0 rs).length := by rw [hp0.length_eq]; exact hkr
  have hp1 : List.Perm (sh 1 ((sh 0 rs).drop k ++ os)) ((sh 0 rs).drop k ++ os) :=
    hsh 1 _
  have heq : generate_random_teams_with_region sh rs os k
      = (distribPlayers (fun i => i % k) (seedTeams k (sh 0 rs)) 0
          (sh 1 ((sh 0 rs).drop k ++ os))).filter (fun team => !team.isEmpty) := by
    unfold generate_random_teams_with_region
    rw [if_neg (by
      simp only [Bool.or_eq_true, decide_eq_true_eq, List.isEmpty_eq_true]
      push_neg
      refine ⟨by omega, ?_⟩
      intro hnil
      rw [hnil] at hkr
      simp at hkr
      omega)]
  obtain ⟨hlen0, hle0, hsub0, hcomp0, hhead0⟩ :=
    seeded_distrib_teams_spec (modIdx_roundIdx hk) hk (sh 0 rs)
      (sh 1 ((sh 0 rs).drop k ++ os)) hkr0
  have hsplit : (((sh 0 rs).take k : List Player) : Multiset Player)
      + (((sh 0 rs).drop k ++ os : List Player) : Multiset Player)
      = (rs : Multiset Player) + (os : Multiset Player) := by
    rw [coe_append_multiset]
    have htd : (((sh 0 rs).take k : List Player) : Multiset Player)
        + (((sh 0 rs).drop k : List Player) : Multiset Player)
        = ((sh 0 rs : List Player) : Multiset Player) := by
      rw [← coe_append_multiset, List.take_append_drop]
    have hr : ((sh 0 rs : List Player) : Multiset Player) = (rs : Multiset Player) :=
      Multiset.coe_eq_coe.mpr hp0
    calc (((sh 0 rs).take k : List Player) : Multiset Player)
        + ((((sh 0 rs).drop k : List Player) : Multiset Player) + (os : Multiset Player))
        = ((((sh 0 rs).take k : List Player) : Multiset Player)
          + (((sh 0 rs).drop k : List Player) : Multiset Player)) + (os : Multiset Player) := by
          abel
    _ = (rs : Multiset Player) + (os : Multiset Player) := by rw [htd, hr]
  have har : ((sh 1 ((sh 0 rs).drop k ++ os) : List Player) : Multiset Player)
      = (((sh 0 rs).drop k ++ os : List Player) : Multiset Player) :=
    Multiset.coe_eq_coe.mpr hp1
  have hflat : (generate_random_teams_with_region sh rs os k).flatten
      = (distribPlayers (fun i => i % k) (seedTeams k (sh 0 rs)) 0
          (sh 1 ((sh 0 rs).drop k ++ os))).flatten := by
    rw [heq, flatten_filter_nonempty]
  refine ⟨?_, ?_, ?_, ?_, ?_⟩
  · intro hcap
    have hc : (sh 1 ((sh 0 rs).drop k ++ os)).length ≤ 3 * k := by
      have h1 := hp1.length_eq
      have h2 := hp0.length_eq
      simp only [List.length_append, List.length_drop] at h1
      omega
    have h := hcomp0 hc
    apply Multiset.coe_eq_coe.mp
    rw [hflat, h, har, hsplit, coe_append_multiset]
  · intro team hteam
    rw [heq] at hteam
    have hmem := List.mem_filter.mp hteam
    have hne : team ≠ [] := by
      intro hnil
      rw [hnil] at hmem
      simp at hmem
    obtain ⟨t, ht, hgetD⟩ := mem_getD _ team hmem.1
    constructor
    · cases team with
      | nil => exact absurd rfl hne
      | cons x xs => simp
    · rw [← hgetD]
      exact hle0 t
  · intro team hteam p hp
    rw [heq] at hteam
    have hmem := List.mem_filter.mp hteam
    have hpf : p ∈ (distribPlayers (fun i => i % k) (seedTeams k (sh 0 rs)) 0
        (sh 1 ((sh 0 rs).drop k ++ os))).flatten := by
      rw [List.mem_flatten]
      exact ⟨team, hmem.1, hp⟩
    have hle2 : ((distribPlayers (fun i => i % k) (seedTeams k (sh 0 rs)) 0
        (sh 1 ((sh 0 rs).drop k ++ os))).flatten : Multiset Player)
        ≤ (rs : Multiset Player) + (os : Multiset Player) := by
      rw [← hsplit, ← har]
      exact hsub0
    have := Multiset.mem_of_le hle2 (by simpa using hpf)
    rw [← coe_append_multiset] at this
    simpa using this
  · rw [heq]
    calc ((distribPlayers (fun i => i % k) (seedTeams k (sh 0 rs)) 0
        (sh 1 ((sh 0 rs).drop k ++ os))).filter (fun team => !team.isEmpty)).length
        ≤ (distribPlayers (fun i => i % k) (seedTeams k (sh 0 rs)) 0
          (sh 1 ((sh 0 rs).drop k ++ os))).length := List.length_filter_le _ _
    _ = k := hlen0
  · intro team hteam
    rw [heq] at hteam
    have hmem := List.mem_filter.mp hteam
    obtain ⟨t, ht, hgetD⟩ := mem_getD _ team hmem.1
    rw [hlen0] at ht
    refine ⟨(sh 0 rs).getD t default, by rw [← hgetD]; exact hhead0 t ht, ?_⟩
    have hmem2 : (sh 0 rs).getD t default ∈ sh 0 rs := by
      rw [List.getD_eq_getElem?_getD, List.getElem?_eq_getElem (by omega)]
      exact List.getElem_mem _
    exact hp0.mem_iff.mp hmem2

/-! ## `balance_teams_with_region` plumbing -/

theorem one_le_regionTeamCount (n rc : Nat) (h2 : 2 ≤ n) (hrc : 1 ≤ rc) :
    1 ≤ regionTeamCount n rc := by
  unfold regionTeamCount
  apply one_le_reduceTeams
  split_ifs <;> omega

theorem regionTeamCount_le (n rc : Nat) : regionTeamCount n rc ≤ rc := by
  unfold regionTeamCount
  refine le_trans (reduceTeams_le n _) ?_
  omega

theorem balance_teams_with_region_eq (sh : Shuffle) (players : List Player)
    (rg : String) (u : Bool) (h2 : 2 ≤ players.length)
    (hne : players.filter (fun p => regionMatches p rg) ≠ []) :
    balance_teams_with_region sh players rg u
      = if u then
          generate_random_teams_with_region sh
            (players.filter (fun p => regionMatches p rg))
            (players.filter (fun p => !(regionMatches p rg)))
            (regionTeamCount players.length (players.filter (fun p => regionMatches p rg)).length)
        else
          generate_optimal_teams_with_region sh
            (players.filter (fun p => regionMatches p rg))
            (players.filter (fun p => !(regionMatches p rg)))
            (regionTeamCount players.length (players.filter (fun p => regionMatches p rg)).length)
            false := by
  unfold balance_teams_with_region
  rw [if_neg (by omega)]
  show (if (players.filter (fun p => regionMatches p rg)).isEmpty = true then []
    else if regionTeamCount players.length
        (players.filter (fun p => regionMatches p rg)).length < 1 then []
      else if u then
        generate_random_teams_with_region sh
          (players.filter (fun p => regionMatches p rg))
          (players.filter (fun p => !(regionMatches p rg)))
          (regionTeamCount players.length (players.filter (fun p => regionMatches p rg)).length)
      else
        generate_optimal_teams_with_region sh
          (players.filter (fun p => regionMatches p rg))
          (players.filter (fun p => !(regionMatches p rg)))
          (regionTeamCount players.length (players.filter (fun p => regionMatches p rg)).length)
          false) = _
  rw [if_neg (by simpa using hne)]
  rw [if_neg (by
    have h1 : 1 ≤ (players.filter (fun p => regionMatches p rg)).length := by
      cases hF : players.filter (fun p => regionMatches p rg) with
      | nil => exact absurd hF hne
      | cons x xs => simp
    have := one_le_regionTeamCount players.length
      (players.filter (fun p => regionMatches p rg)).length h2 h1
    omega)]

theorem balance_teams_with_region_empty (sh : Shuffle) (players : List Player)
    (rg : String) (u : Bool)
    (hne : players.filter (fun p => regionMatches p rg) = []) :
    balance_teams_with_region sh players rg u = [] := by
  unfold balance_teams_with_region
  by_cases h2 : players.length < 2
  · rw [if_pos (by simpa using h2)]
  · rw [if_neg (by simpa using h2)]
    show (if (players.filter (fun p => regionMatches p rg)).isEmpty = true then []
      else _) = ([] : List (List Player))
    rw [if_pos (by simp [hne])]


/-! ## Guard-free size and membership facts -/

theorem generate_optimal_teams_guard (sh : Shuffle) (players : List Player) (k mi : Nat)
    (r : Bool) (h : players.length < 2 ∨ k < 1) :
    generate_optimal_teams sh players k mi r = [] := by
  unfold generate_optimal_teams
  rw [if_pos (by simp only [Bool.or_eq_true, decide_eq_true_eq]; omega)]

theorem generate_optimal_teams_mi_zero (sh : Shuffle) (players : List Player) (k : Nat)
    (r : Bool) : generate_optimal_teams sh players k 0 r = [] := by
  unfold generate_optimal_teams
  split
  · rfl
  · simp [Nat.zero_min]

theorem generate_random_teams_guard (sh : Shuffle) (players : List Player) (k : Nat)
    (h : players.length < 2 ∨ k < 1) :
    generate_random_teams sh players k = [] := by
  unfold generate_random_teams
  rw [if_pos (by simp only [Bool.or_eq_true, decide_eq_true_eq]; omega)]

theorem generate_optimal_teams_with_region_guard (sh : Shuffle) (rs os : List Player)
    (k : Nat) (r : Bool) (h : k < 1 ∨ rs = []) :
    generate_optimal_teams_with_region sh rs os k r = [] := by
  unfold generate_optimal_teams_with_region
  rw [if_pos (by
    simp only [Bool.or_eq_true, decide_eq_true_eq, List.isEmpty_eq_true]
    exact h)]

theorem generate_random_teams_with_region_guard (sh : Shuffle) (rs os : List Player)
    (k : Nat) (h : k < 1 ∨ rs = []) :
    generate_random_teams_with_region sh rs os k = [] := by
  unfold generate_random_teams_with_region
  rw [if_pos (by
    simp only [Bool.or_eq_true, decide_eq_true_eq, List.isEmpty_eq_true]
    exact h)]

theorem seedTeams_getD_le (k : Nat) (rl : List Player) :
    ∀ t, ((seedTeams k rl).getD t []).length ≤ 4 := by
  intro t
  unfold seedTeams
  rw [(seedTeams_aux k rl (min k rl.length)).2 t]
  split <;> simp

theorem generate_optimal_teams_sizes {sh : Shuffle} (hsh : IsShuffle sh)
    (players : List Player) (k mi : Nat) (r : Bool) :
    ∀ team ∈ generate_optimal_teams sh players k mi r,
      1 ≤ team.length ∧ team.length ≤ 4 := by
  by_cases hg : players.length < 2 ∨ k < 1
  · rw [generate_optimal_teams_guard sh players k mi r hg]
    intro team h
    simp at h
  · push_neg at hg
    rcases Nat.eq_zero_or_pos mi with hmi | hmi
    · rw [hmi, generate_optimal_teams_mi_zero]
      intro team h
      simp at h
    · exact (generate_optimal_teams_props hsh players k mi r (by omega) (by omega) hmi).2.1

theorem generate_random_teams_sizes (sh : Shuffle) (players : List Player) (k : Nat) :
    ∀ team ∈ generate_random_teams sh players k,
      1 ≤ team.length ∧ team.length ≤ 4 := by
  by_cases hg : players.length < 2 ∨ k < 1
  · rw [generate_random_teams_guard sh players k hg]
    intro team h
    simp at h
  · push_neg at hg
    have hrep : ∀ t, ((List.replicate k ([] : List Player)).getD t []).length ≤ 4 := by
      intro t
      rw [getD_replicate_nil]
      simp
    have h4 := distribPlayers_getD_le (fun i => i % k) (sh 0 players)
      (List.replicate k []) 0 hrep
    intro team hteam
    unfold generate_random_teams at hteam
    rw [if_neg (by simp only [Bool.or_eq_true, decide_eq_true_eq]; omega)] at hteam
    have hmem := List.mem_filter.mp hteam
    have hne : team ≠ [] := by
      intro hnil
      rw [hnil] at hmem
      simp at hmem
    obtain ⟨t, ht, hgetD⟩ := mem_getD _ team hmem.1
    refine ⟨?_, by rw [← hgetD]; exact h4 t⟩
    cases team with
    | nil => exact absurd rfl hne
    | cons x xs => simp

theorem attemptBodyR_len_sizes {sh : Shuffle} (hsh : IsShuffle sh) (rs os : List Player)
    (k : Nat) (r : Bool) (a c : Nat) :
    ((attemptBodyR sh rs os k r a c).1).length = k
    ∧ ∀ t, (((attemptBodyR sh rs os k r a c).1).getD t []).length ≤ 4 := by
  obtain ⟨rl, ar, hp1, hp2, heq⟩ := attemptBodyR_spec hsh rs os k r a c
  rw [heq]
  have hrel := localOptimizeR_rel k (if ar.length ≤ 8 then 150 else 75)
    (distribPlayers (snakeIdx k) (seedTeams k rl) 0 ar)
  constructor
  · rw [hrel.1.1, distribPlayers_length, seedTeams_length]
  · intro t
    rw [hrel.1.2.1 t]
    exact distribPlayers_getD_le _ ar _ 0 (seedTeams_getD_le k rl) t

theorem generate_optimal_teams_with_region_sizes {sh : Shuffle} (hsh : IsShuffle sh)
    (rs os : List Player) (k : Nat) (r : Bool) :
    ∀ team ∈ generate_optimal_teams_with_region sh rs os k r,
      1 ≤ team.length ∧ team.length ≤ 4 := by
  by_cases hg : k < 1 ∨ rs = []
  · rw [generate_optimal_teams_with_region_guard sh rs os k r hg]
    intro team h
    simp at h
  · push_neg at hg
    have hk : 1 ≤ k := by omega
    have hsome : ((List.range (min 500 (if (rs ++ os).length > 12 then 100 else 200))).foldl
        (bestStep (attemptBodyR sh (sortBySkill rs) (sortBySkill os) k r))
        ((none, ⊤), 0)).1.1.isSome := by
      refine foldl_bestStep_isSome _ ?_ _ _ (Or.inr rfl) ?_
      · intro a c
        have hlen := (attemptBodyR_len_sizes hsh (sortBySkill rs) (sortBySkill os) k r a c).1
        intro hnil
        rw [hnil] at hlen
        simp at hlen
        omega
      · have : 1 ≤ min 500 (if (rs ++ os).length > 12 then 100 else 200) := by
          split <;> omega
        intro hnil
        rw [List.range_eq_nil] at hnil
        omega
    obtain ⟨bt, hbt⟩ := Option.isSome_iff_exists.mp hsome
    have heq : generate_optimal_teams_with_region sh rs os k r
        = bt.filter (fun team => !team.isEmpty) := by
      unfold generate_optimal_teams_with_region
      rw [if_neg (by
        simp only [Bool.or_eq_true, decide_eq_true_eq, List.isEmpty_eq_true]
        push_neg
        exact ⟨by omega, hg.2⟩)]
      exact congrArg
        (fun o : Option (List (List Player)) => match o with
          | some best_teams => List.filter (fun team : List Player => !team.isEmpty) best_teams
          | none => ([] : List (List Player))) hbt
    have hbtP : ∀ t, (bt.getD t []).length ≤ 4 :=
      foldl_bestStep_prop (attemptBodyR sh (sortBySkill rs) (sortBySkill os) k r)
        (fun T => ∀ t, (T.getD t []).length ≤ 4)
        (fun a c => (attemptBodyR_len_sizes hsh (sortBySkill rs) (sortBySkill os) k r a c).2)
        _ ((none, ⊤), 0) (by intro b hb; exact absurd hb (by simp)) bt hbt
    intro team hteam
    rw [heq] at hteam
    have hmem := List.mem_filter.mp hteam
    have hne : team ≠ [] := by
      intro hnil
      rw [hnil] at hmem
      simp at hmem
    obtain ⟨t, ht, hgetD⟩ := mem_getD bt team hmem.1
    refine ⟨?_, by rw [← hgetD]; exact hbtP t⟩
    cases team with
    | nil => exact absurd rfl hne
    | cons x xs => simp

theorem generate_random_teams_with_region_sizes (sh : Shuffle) (rs os : List Player)
    (k : Nat) :
    ∀ team ∈ generate_random_teams_with_region sh rs os k,
      1 ≤ team.length ∧ team.length ≤ 4 := by
  by_cases hg : k < 1 ∨ rs = []
  · rw [generate_random_teams_with_region_guard sh rs os k hg]
    intro team h
    simp at h
  · push_neg at hg
    have h4 := distribPlayers_getD_le (fun i => i % k) (sh 1 ((sh 0 rs).drop k ++ os))
      (seedTeams k (sh 0 rs)) 0 (seedTeams_getD_le k (sh 0 rs))
    intro team hteam
    unfold generate_random_teams_with_region at hteam
    rw [if_neg (by
      simp only [Bool.or_eq_true, decide_eq_true_eq, List.isEmpty_eq_true]
      push_neg
      exact ⟨by omega, hg.2⟩)] at hteam
    have hmem := List.mem_filter.mp hteam
    have hne : team ≠ [] := by
      intro hnil
      rw [hnil] at hmem
      simp at hmem
    obtain ⟨t, ht, hgetD⟩ := mem_getD _ team hmem.1
    refine ⟨?_, by rw [← hgetD]; exact h4 t⟩
    cases team with
    | nil => exact absurd rfl hne
    | cons x xs => simp


/-! ## Facts about the two public balancing entry points -/

theorem balance_teams_lt_two (sh : Shuffle) (players : List Player) (n : Nat) (r : Bool)
    (h : players.length < 2) : balance_teams sh players n r = [] := by
  unfold balance_teams
  rw [if_pos h]

theorem balance_teams_sizes {sh : Shuffle} (hsh : IsShuffle sh) (players : List Player)
    (n : Nat) (r : Bool) :
    ∀ team ∈ balance_teams sh players n r, 1 ≤ team.length ∧ team.length ≤ 4 := by
  by_cases h2 : players.length < 2
  · rw [balance_teams_lt_two sh players n r h2]
    intro team h
    simp at h
  · rw [balance_teams_eq sh players n r (by omega)]
    cases r with
    | true =>
      rw [if_pos rfl]
      exact generate_random_teams_sizes sh players (plannedTeams players.length)
    | false =>
      rw [if_neg (by simp)]
      exact generate_optimal_teams_sizes hsh players (plannedTeams players.length) 10000 false

theorem balance_teams_length_le (sh_any : Shuffle) (hsh : IsShuffle sh_any)
    (players : List Player) (n : Nat) (r : Bool) :
    (balance_teams sh_any players n r).length ≤ 5 := by
  by_cases h2 : players.length < 2
  · rw [balance_teams_lt_two sh_any players n r h2]
    simp
  · rw [balance_teams_eq sh_any players n r (by omega)]
    have hk : 1 ≤ plannedTeams players.length := one_le_plannedTeams players.length
    have hk5 : plannedTeams players.length ≤ 5 := plannedTeams_le players.length
    cases r with
    | true =>
      rw [if_pos rfl]
      have := (generate_random_teams_props hsh players (by omega) hk).2.2.2
      omega
    | false =>
      rw [if_neg (by simp)]
      have := (generate_optimal_teams_props hsh players (plannedTeams players.length) 10000
        false (by omega) hk (by omega)).2.2.2
      omega

theorem balance_teams_flatten_le_20 {sh : Shuffle} (hsh : IsShuffle sh)
    (players : List Player) (n : Nat) (r : Bool) :
    (balance_teams sh players n r).flatten.length ≤ 20 := by
  have hs := balance_teams_sizes hsh players n r
  have hc := balance_teams_length_le sh hsh players n r
  have := length_flatten_le (balance_teams sh players n r) (fun team hm => (hs team hm).2)
  omega

theorem balance_teams_complete {sh : Shuffle} (hsh : IsShuffle sh) (players : List Player)
    (n : Nat) (r : Bool) (h2 : 2 ≤ players.length) (h20 : players.length ≤ 20) :
    List.Perm (balance_teams sh players n r).flatten players := by
  rw [balance_teams_eq sh players n r h2]
  have hk : 1 ≤ plannedTeams players.length := one_le_plannedTeams players.length
  have hcap : players.length ≤ 4 * plannedTeams players.length :=
    plannedTeams_cap players.length (by omega) h2
  cases r with
  | true =>
    rw [if_pos rfl]
    exact (generate_random_teams_props hsh players h2 hk).1 hcap
  | false =>
    rw [if_neg (by simp)]
    exact (generate_optimal_teams_props hsh players (plannedTeams players.length) 10000
      false h2 hk (by omega)).1 hcap

theorem balance_teams_mem {sh : Shuffle} (hsh : IsShuffle sh) (players : List Player)
    (n : Nat) (r : Bool) :
    ∀ team ∈ balance_teams sh players n r, ∀ p ∈ team, p ∈ players := by
  by_cases h2 : players.length < 2
  · rw [balance_teams_lt_two sh players n r h2]
    intro team h
    simp at h
  · rw [balance_teams_eq sh players n r (by omega)]
    have hk : 1 ≤ plannedTeams players.length := one_le_plannedTeams players.length
    cases r with
    | true =>
      rw [if_pos rfl]
      exact (generate_random_teams_props hsh players (by omega) hk).2.2.1
    | false =>
      rw [if_neg (by simp)]
      exact (generate_optimal_teams_props hsh players (plannedTeams players.length) 10000
        false (by omega) hk (by omega)).2.2.1

theorem mem_filter_pair_of_mem (players : List Player) (rg : String) (p : Player)
    (h : p ∈ players.filter (fun q => regionMatches q rg)
      ++ players.filter (fun q => !(regionMatches q rg))) : p ∈ players := by
  rcases List.mem_append.mp h with h1 | h1
  · exact (List.mem_filter.mp h1).1
  · exact (List.mem_filter.mp h1).1

theorem balance_teams_with_region_heads {sh : Shuffle} (hsh : IsShuffle sh)
    (players : List Player) (rg : String) (u : Bool) :
    ∀ team ∈ balance_teams_with_region sh players rg u,
      ∃ p, team.head? = some p ∧ regionMatches p rg = true := by
  by_cases hne : players.filter (fun p => regionMatches p rg) = []
  · rw [balance_teams_with_region_empty sh players rg u hne]
    intro team h
    simp at h
  · by_cases h2 : players.length < 2
    · rw [show balance_teams_with_region sh players rg u = [] from by
        unfold balance_teams_with_region
        rw [if_pos h2]]
      intro team h
      simp at h
    · rw [balance_teams_with_region_eq sh players rg u (by omega) hne]
      have h1 : 1 ≤ (players.filter (fun p => regionMatches p rg)).length := by
        cases hF : players.filter (fun p => regionMatches p rg) with
        | nil => exact absurd hF hne
        | cons x xs => simp
      have hk : 1 ≤ regionTeamCount players.length
          (players.filter (fun p => regionMatches p rg)).length :=
        one_le_regionTeamCount _ _ (by omega) h1
      have hkr : regionTeamCount players.length
          (players.filter (fun p => regionMatches p rg)).length
          ≤ (players.filter (fun p => regionMatches p rg)).length :=
        regionTeamCount_le _ _
      cases u with
      | true =>
        rw [if_pos rfl]
        intro team hteam
        obtain ⟨p, hp, hpm⟩ :=
          (generate_random_teams_with_region_props hsh _ _ hk hkr).2.2.2.2 team hteam
        exact ⟨p, hp, (List.mem_filter.mp hpm).2⟩
      | false =>
        rw [if_neg (by simp)]
        intro team hteam
        obtain ⟨p, hp, hpm⟩ :=
          (generate_optimal_teams_with_region_props hsh _ _ false hk hkr).2.2.2.2 team hteam
        exact ⟨p, hp, (List.mem_filter.mp hpm).2⟩

theorem balance_teams_with_region_complete {sh : Shuffle} (hsh : IsShuffle sh)
    (players : List Player) (rg : String) (u : Bool) (h2 : 2 ≤ players.length)
    (hne : players.filter (fun p => regionMatches p rg) ≠ [])
    (hcap : players.length ≤ 4 * regionTeamCount players.length
      (players.filter (fun p => regionMatches p rg)).length) :
    List.Perm (balance_teams_with_region sh players rg u).flatten players := by
  rw [balance_teams_with_region_eq sh players rg u h2 hne]
  have h1 : 1 ≤ (players.filter (fun p => regionMatches p rg)).length := by
    cases hF : players.filter (fun p => regionMatches p rg) with
    | nil => exact absurd hF hne
    | cons x xs => simp
  have hk : 1 ≤ regionTeamCount players.length
      (players.filter (fun p => regionMatches p rg)).length :=
    one_le_regionTeamCount _ _ h2 h1
  have hkr : regionTeamCount players.length
      (players.filter (fun p => regionMatches p rg)).length
      ≤ (players.filter (fun p => regionMatches p rg)).length :=
    regionTeamCount_le _ _
  have hsplitlen : (players.filter (fun p => regionMatches p rg)).length
      + (players.filter (fun p => !(regionMatches p rg))).length = players.length := by
    have := (List.filter_append_perm (fun p => regionMatches p rg) players).length_eq
    simp only [List.length_append] at this
    exact this
  have hpermsplit : List.Perm
      (players.filter (fun p => regionMatches p rg)
        ++ players.filter (fun p => !(regionMatches p rg))) players :=
    List.filter_append_perm _ players
  cases u with
  | true =>
    rw [if_pos rfl]
    refine List.Perm.trans
      ((generate_random_teams_with_region_props hsh _ _ hk hkr).1 (by omega)) hpermsplit
  | false =>
    rw [if_neg (by simp)]
    refine List.Perm.trans
      ((generate_optimal_teams_with_region_props hsh _ _ false hk hkr).1 (by omega)) hpermsplit

theorem balance_teams_with_region_mem {sh : Shuffle} (hsh : IsShuffle sh)
    (players : List Player) (rg : String) (u : Bool) :
    ∀ team ∈ balance_teams_with_region sh players rg u, ∀ p ∈ team, p ∈ players := by
  by_cases hne : players.filter (fun p => regionMatches p rg) = []
  · rw [balance_teams_with_region_empty sh players rg u hne]
    intro team h
    simp at h
  · by_cases h2 : players.length < 2
    · rw [show balance_teams_with_region sh players rg u = [] from by
        unfold balance_teams_with_region
        rw [if_pos h2]]
      intro team h
      simp at h
    · rw [balance_teams_with_region_eq sh players rg u (by omega) hne]
      have h1 : 1 ≤ (players.filter (fun p => regionMatches p rg)).length := by
        cases hF : players.filter (fun p => regionMatches p rg) with
        | nil => exact absurd hF hne
        | cons x xs => simp
      have hk : 1 ≤ regionTeamCount players.length
          (players.filter (fun p => regionMatches p rg)).length :=
        one_le_regionTeamCount _ _ (by omega) h1
      have hkr : regionTeamCount players.length
          (players.filter (fun p => regionMatches p rg)).length
          ≤ (players.filter (fun p => regionMatches p rg)).length :=
        regionTeamCount_le _ _
      cases u with
      | true =>
        rw [if_pos rfl]
        intro team hteam p hp
        exact mem_filter_pair_of_mem players rg p
          ((generate_random_teams_with_region_props hsh _ _ hk hkr).2.2.1 team hteam p hp)
      | false =>
        rw [if_neg (by simp)]
        intro team hteam p hp
        exact mem_filter_pair_of_mem players rg p
          ((generate_optimal_teams_with_region_props hsh _ _ false hk hkr).2.2.1 team hteam p hp)


/-! ## A concrete two-player, five-team run

With roster `[pHigh, pLow]` and 5 requested teams, every attempt produces
the same partition `[[pHigh], [pLow], [], [], []]` (variance 40); removing
the empty teams yields `[[pHigh], [pLow]]`, whose variance is 100. -/

theorem var_teams5 :
    calculate_variance [[pHigh], [pLow], [], [], []] = ((40 : ℚ) : WithTop ℚ) := by
  unfold calculate_variance
  rw [if_neg (by simp)]
  norm_num [calculate_team_average, get_player_skill, pHigh, pLow]

theorem var_teams5_swapped :
    calculate_variance [[pLow], [pHigh], [], [], []] = ((40 : ℚ) : WithTop ℚ) := by
  unfold calculate_variance
  rw [if_neg (by simp)]
  norm_num [calculate_team_average, get_player_skill, pHigh, pLow]

theorem var_teams2 :
    calculate_variance [[pHigh], [pLow]] = ((100 : ℚ) : WithTop ℚ) := by
  unfold calculate_variance
  rw [if_neg (by simp)]
  norm_num [calculate_team_average, get_player_skill, pHigh, pLow]

theorem trySwap_teams5 (b : Bool) :
    trySwap ⟨[[pHigh], [pLow], [], [], []], ((40 : ℚ) : WithTop ℚ), b⟩ 0 1 0 0
      = ⟨[[pHigh], [pLow], [], [], []], ((40 : ℚ) : WithTop ℚ), b⟩ := by
  unfold trySwap
  dsimp only
  rw [show swapPlayers [[pHigh], [pLow], [], [], []] 0 1 0 0
      = [[pLow], [pHigh], [], [], []] from rfl]
  rw [var_teams5_swapped]
  rw [if_neg (lt_irrefl _)]
  rfl

theorem sweepPair_teams5_01 (b : Bool) :
    sweepPair ⟨[[pHigh], [pLow], [], [], []], ((40 : ℚ) : WithTop ℚ), b⟩ 0 1
      = ⟨[[pHigh], [pLow], [], [], []], ((40 : ℚ) : WithTop ℚ), b⟩ := by
  unfold sweepPair
  rw [if_neg (by simp)]
  exact trySwap_teams5 b

theorem sweepPair_teams5_skip (b : Bool) (i j : Nat) (hj : 2 ≤ j) :
    sweepPair ⟨[[pHigh], [pLow], [], [], []], ((40 : ℚ) : WithTop ℚ), b⟩ i j
      = ⟨[[pHigh], [pLow], [], [], []], ((40 : ℚ) : WithTop ℚ), b⟩ := by
  have hjnil : ([[pHigh], [pLow], [], [], []] : List (List Player)).getD j [] = [] := by
    match j, hj with
    | 2, _ => rfl
    | 3, _ => rfl
    | 4, _ => rfl
    | j + 5, _ =>
      apply getD_of_le
      simp
  unfold sweepPair
  rw [if_pos (by rw [hjnil]; simp)]

theorem sweep_teams5 :
    sweepWith sweepPair 5 [[pHigh], [pLow], [], [], []]
      = ([[pHigh], [pLow], [], [], []], false) := by
  unfold sweepWith
  rw [var_teams5]
  rw [show List.range 5 = [0, 1, 2, 3, 4] from rfl]
  simp only [List.foldl_cons, List.foldl_nil]
  rw [show List.range' (0 + 1) (5 - (0 + 1)) = [1, 2, 3, 4] from rfl]
  rw [show List.range' (1 + 1) (5 - (1 + 1)) = [2, 3, 4] from rfl]
  rw [show List.range' (2 + 1) (5 - (2 + 1)) = [3, 4] from rfl]
  rw [show List.range' (3 + 1) (5 - (3 + 1)) = [4] from rfl]
  rw [show List.range' (4 + 1) (5 - (4 + 1)) = ([] : List Nat) from rfl]
  simp only [List.foldl_cons, List.foldl_nil]
  rw [sweepPair_teams5_01]
  rw [sweepPair_teams5_skip false 0 2 (by omega), sweepPair_teams5_skip false 0 3 (by omega),
    sweepPair_teams5_skip false 0 4 (by omega), sweepPair_teams5_skip false 1 2 (by omega),
    sweepPair_teams5_skip false 1 3 (by omega), sweepPair_teams5_skip false 1 4 (by omega),
    sweepPair_teams5_skip false 2 3 (by omega), sweepPair_teams5_skip false 2 4 (by omega),
    sweepPair_teams5_skip false 3 4 (by omega)]

theorem localOptimize_teams5 :
    localOptimize 5 200 [[pHigh], [pLow], [], [], []] = [[pHigh], [pLow], [], [], []] := by
  unfold localOptimize
  rw [show (200 : Nat) = 199 + 1 from rfl]
  rw [localOptimizeWith]
  rw [sweep_teams5]
  rfl

theorem sortBySkill_pair : sortBySkill [pHigh, pLow] = [pHigh, pLow] := by
  unfold sortBySkill
  apply List.mergeSort_of_sorted
  refine List.Pairwise.cons ?_ (List.pairwise_singleton _ _)
  intro b hb
  rw [List.mem_singleton] at hb
  subst hb
  norm_num [get_player_skill, pHigh, pLow]

theorem attemptBody_pair (a c : Nat) :
    (attemptBody idShuffle (sortBySkill [pHigh, pLow]) 5 2 false a c).1
      = [[pHigh], [pLow], [], [], []] := by
  rw [attemptBody_idShuffle, sortBySkill_pair]
  rw [show distribPlayers (snakeIdx 5) (List.replicate 5 []) 0 [pHigh, pLow]
      = [[pHigh], [pLow], [], [], []] from rfl]
  rw [if_pos (by omega)]
  exact localOptimize_teams5

theorem fold_pair (l : List Nat)
    (st : (Option (List (List Player)) × WithTop ℚ) × Nat)
    (hst : st.1 = (some [[pHigh], [pLow], [], [], []], ((40 : ℚ) : WithTop ℚ))) :
    ((l.foldl (bestStep (attemptBody idShuffle (sortBySkill [pHigh, pLow]) 5 2 false)) st).1)
      = (some [[pHigh], [pLow], [], [], []], ((40 : ℚ) : WithTop ℚ)) := by
  refine foldl_preserve
    (fun s => s.1 = (some [[pHigh], [pLow], [], [], []], ((40 : ℚ) : WithTop ℚ)))
    _ l st hst ?_
  intro s a _ hs
  rw [bestStep_eq, attemptBody_pair a s.2, var_teams5]
  rw [if_neg (by rw [hs]; exact lt_irrefl _)]
  exact hs

set_option maxRecDepth 1000 in
theorem generate_optimal_pair :
    generate_optimal_teams idShuffle [pHigh, pLow] 5 10000 false = [[pHigh], [pLow]] := by
  have hfold : (((List.range (min 10000 (if ([pHigh, pLow] : List Player).length ≤ 12
        then 1000 else 500))).foldl
      (bestStep (attemptBody idShuffle (sortBySkill [pHigh, pLow]) 5
        ([pHigh, pLow] : List Player).length false)) ((none, ⊤), 0)).1)
      = (some [[pHigh], [pLow], [], [], []], ((40 : ℚ) : WithTop ℚ)) := by
    rw [show min 10000 (if ([pHigh, pLow] : List Player).length ≤ 12 then 1000 else 500)
        = 1000 from by norm_num]
    rw [show (1000 : Nat) = 999 + 1 from rfl, List.range_succ_eq_map, List.foldl_cons]
    refine fold_pair _ _ ?_
    rw [show ([pHigh, pLow] : List Player).length = 2 from rfl]
    rw [bestStep_eq, attemptBody_pair 0 0, var_teams5]
    rw [if_pos (WithTop.coe_lt_top _)]
  unfold generate_optimal_teams
  rw [if_neg (by
    simp only [Bool.or_eq_true, decide_eq_true_eq, List.length_cons, List.length_nil]
    omega)]
  have hfold1 : (((List.range (min 10000 (if ([pHigh, pLow] : List Player).length ≤ 12
        then 1000 else 500))).foldl
      (bestStep (attemptBody idShuffle (sortBySkill [pHigh, pLow]) 5
        ([pHigh, pLow] : List Player).length false)) ((none, ⊤), 0)).1.1)
      = some [[pHigh], [pLow], [], [], []] := (congrArg Prod.fst hfold).trans rfl
  dsimp only
  rw [hfold1]
  rfl

/-! ## Shared helpers for the claim-level theorems -/

/-- The identity oracle is a legitimate shuffle. -/
theorem isShuffle_id : IsShuffle idShuffle := fun _ l => List.Perm.refl l

/-- On the very first attempt the accumulator still holds `(none, ⊤)`, so a
nonempty candidate is always recorded together with its variance. -/
theorem bestStep_init (body : Nat → Nat → List (List Player) × Nat)
    (hne : (body 0 0).1 ≠ []) :
    (bestStep body ((none, ⊤), 0) 0).1
      = (some (body 0 0).1, calculate_variance (body 0 0).1) := by
  rw [bestStep_eq, if_pos (calculate_variance_lt_top hne)]

/-- The best recorded variance after any number of attempts is bounded by the
variance of the first attempt's result. -/
theorem foldl_bestStep_first (body : Nat → Nat → List (List Player) × Nat)
    (m : Nat) (hne : (body 0 0).1 ≠ []) :
    ((List.range (m + 1)).foldl (bestStep body) ((none, ⊤), 0)).1.2
      ≤ calculate_variance (body 0 0).1 := by
  rw [List.range_succ_eq_map, List.foldl_cons]
  refine le_trans (foldl_bestStep_var_le body _ _) ?_
  exact le_of_eq (congrArg Prod.snd (bestStep_init body hne))

theorem generate_optimal_teams_mem {sh : Shuffle} (hsh : IsShuffle sh)
    (players : List Player) (k mi : Nat) (r : Bool) :
    ∀ team ∈ generate_optimal_teams sh players k mi r, ∀ p ∈ team, p ∈ players := by
  by_cases hg : players.length < 2 ∨ k < 1
  · rw [generate_optimal_teams_guard sh players k mi r hg]
    intro team h
    simp at h
  · push_neg at hg
    rcases Nat.eq_zero_or_pos mi with hmi | hmi
    · rw [hmi, generate_optimal_teams_mi_zero]
      intro team h
      simp at h
    · exact (generate_optimal_teams_props hsh players k mi r (by omega) (by omega) hmi).2.2.1

theorem generate_random_teams_mem {sh : Shuffle} (hsh : IsShuffle sh)
    (players : List Player) (k : Nat) :
    ∀ team ∈ generate_random_teams sh players k, ∀ p ∈ team, p ∈ players := by
  by_cases hg : players.length < 2 ∨ k < 1
  · rw [generate_random_teams_guard sh players k hg]
    intro team h
    simp at h
  · push_neg at hg
    exact (generate_random_teams_props hsh players (by omega) (by omega)).2.2.1

/-- The returned partition of `generate_optimal_teams` is the recorded best
partition with empty teams removed, and the recorded best variance is at most
the first (deterministic) attempt's final variance. -/
theorem generate_optimal_teams_best_le_first {sh : Shuffle} (hsh : IsShuffle sh)
    (players : List Player) {k mi : Nat} (r : Bool)
    (h2 : 2 ≤ players.length) (hk : 1 ≤ k) (hmi : 1 ≤ mi) :
    ∃ bt, generate_optimal_teams sh players k mi r
        = bt.filter (fun team => !team.isEmpty)
      ∧ calculate_variance bt
        ≤ calculate_variance (attemptBody sh (sortBySkill players) k
            players.length r 0 0).1 := by
  obtain ⟨bt, hbt, heq⟩ := generate_optimal_teams_cases hsh players r h2 hk hmi
  refine ⟨bt, heq, ?_⟩
  have htr := foldl_bestStep_tracks
    (attemptBody sh (sortBySkill players) k players.length r) _ _
    (by intro b hb; exact absurd hb (by simp)) bt hbt
  rw [← htr]
  obtain ⟨m, hm⟩ : ∃ m, min mi (if players.length ≤ 12 then 1000 else 500) = m + 1 := by
    refine ⟨min mi (if players.length ≤ 12 then 1000 else 500) - 1, ?_⟩
    have : 1 ≤ min mi (if players.length ≤ 12 then 1000 else 500) := by
      split <;> omega
    omega
  rw [hm]
  refine foldl_bestStep_first _ m ?_
  have hlen := (attemptBody_teams hsh (sortBySkill players) players.length r hk 0 0).1
  intro hnil
  rw [hnil] at hlen
  simp at hlen
  omega

/-- The region analogue of `generate_optimal_teams_best_le_first`. -/
theorem generate_optimal_teams_with_region_best_le_first {sh : Shuffle} (hsh : IsShuffle sh)
    (rs os : List Player) {k : Nat} (r : Bool) (hk : 1 ≤ k) (hkr : k ≤ rs.length) :
    ∃ bt, generate_optimal_teams_with_region sh rs os k r
        = bt.filter (fun team => !team.isEmpty)
      ∧ calculate_variance bt
        ≤ calculate_variance (attemptBodyR sh (sortBySkill rs) (sortBySkill os)
            k r 0 0).1 := by
  obtain ⟨bt, hbt, heq⟩ := generate_optimal_teams_with_region_cases hsh rs os r hk hkr
  refine ⟨bt, heq, ?_⟩
  have htr := foldl_bestStep_tracks
    (attemptBodyR sh (sortBySkill rs) (sortBySkill os) k r) _ _
    (by intro b hb; exact absurd hb (by simp)) bt hbt
  rw [← htr]
  obtain ⟨m, hm⟩ : ∃ m, min 500 (if (rs ++ os).length > 12 then 100 else 200) = m + 1 := by
    refine ⟨min 500 (if (rs ++ os).length > 12 then 100 else 200) - 1, ?_⟩
    have : 1 ≤ min 500 (if (rs ++ os).length > 12 then 100 else 200) := by
      split <;> omega
    omega
  rw [hm]
  refine foldl_bestStep_first _ m ?_
  have hkr' : k ≤ (sortBySkill rs).length := by
    rw [(sortBySkill_perm rs).length_eq]
    exact hkr
  have hlen := (attemptBodyR_teams hsh (sortBySkill rs) (sortBySkill os) r hk hkr' 0 0).1
  intro hnil
  rw [hnil] at hlen
  simp at hlen
  omega

/-- Expanding the square inside a list sum. -/
theorem sum_sq_sub (l : List ℚ) (m : ℚ) :
    (l.map (fun a => (a - m) ^ 2)).sum
      = (l.map (fun a => a ^ 2)).sum - 2 * m * l.sum + (l.length : ℚ) * m ^ 2 := by
  induction l with
  | nil => simp
  | cons x xs ih =>
    simp only [List.map_cons, List.sum_cons, List.length_cons, ih]
    push_cast
    ring

/-- `n² · populationVariance = n · Σa² - (Σa)²` for a nonempty list of values. -/
theorem variance_identity (l : List ℚ) (hl : l ≠ []) :
    ((l.length : ℚ)) ^ 2 * ((l.map (fun a => (a - l.sum / (l.length : ℚ)) ^ 2)).sum
        / (l.length : ℚ))
      = (l.length : ℚ) * (l.map (fun a => a ^ 2)).sum - l.sum ^ 2 := by
  have hn : ((l.length : ℚ)) ≠ 0 :=
    (Nat.cast_pos.mpr (List.length_pos.mpr hl)).ne'
  rw [sum_sq_sub]
  field_simp
  ring

/-! ## The claims -/

/-- C1: partition completeness fails in general — on a 21-player roster
`balance_teams` plans at most 5 teams of at most 4 players, so at least one
player is silently dropped from the returned partition. -/
theorem balance_teams_drops_a_player :
    2 ≤ roster21.length
    ∧ ¬ List.Perm (balance_teams idShuffle roster21 2 false).flatten roster21 := by
  have h21 : roster21.length = 21 := by
    simp [roster21]
  constructor
  · omega
  · intro hperm
    have h20 := balance_teams_flatten_le_20 isShuffle_id roster21 2 false
    have hlen := hperm.length_eq
    omega

/-- C1 (amended): partition completeness holds for every balancing operation
whenever the produced team count can seat the whole roster — `n ≤ 4·teamCount`
for the generators, `n ≤ 20` for `balance_teams`, and `n ≤ 4·regionTeamCount`
in region mode; the returned teams then contain exactly the input players. -/
theorem partition_complete_of_capacity :
    (∀ (sh : Shuffle), IsShuffle sh → ∀ (players : List Player) (k mi : Nat) (r : Bool),
      2 ≤ players.length → 1 ≤ k → 1 ≤ mi → players.length ≤ 4 * k →
      List.Perm (generate_optimal_teams sh players k mi r).flatten players)
    ∧ (∀ (sh : Shuffle), IsShuffle sh → ∀ (players : List Player) (k : Nat),
      2 ≤ players.length → 1 ≤ k → players.length ≤ 4 * k →
      List.Perm (generate_random_teams sh players k).flatten players)
    ∧ (∀ (sh : Shuffle), IsShuffle sh → ∀ (players : List Player) (n : Nat) (r : Bool),
      2 ≤ players.length → players.length ≤ 20 →
      List.Perm (balance_teams sh players n r).flatten players)
    ∧ (∀ (sh : Shuffle), IsShuffle sh → ∀ (players : List Player) (rg : String) (u : Bool),
      2 ≤ players.length →
      players.filter (fun p => regionMatches p rg) ≠ [] →
      players.length ≤ 4 * regionTeamCount players.length
        (players.filter (fun p => regionMatches p rg)).length →
      List.Perm (balance_teams_with_region sh players rg u).flatten players) := by
  refine ⟨?_, ?_, ?_, ?_⟩
  · intro sh hsh players k mi r h2 hk hmi hcap
    exact (generate_optimal_teams_props hsh players k mi r h2 hk hmi).1 hcap
  · intro sh hsh players k h2 hk hcap
    exact (generate_random_teams_props hsh players h2 hk).1 hcap
  · intro sh hsh players n r h2 h20
    exact balance_teams_complete hsh players n r h2 h20
  · intro sh hsh players rg u h2 hne hcap
    exact balance_teams_with_region_complete hsh players rg u h2 hne hcap

/-- C1 witness: on the two-player roster every hypothesis of the amended
completeness theorem holds and `balance_teams` returns both players. -/
theorem partition_complete_of_capacity_witness :
    IsShuffle idShuffle
    ∧ 2 ≤ ([pHigh, pLow] : List Player).length
    ∧ ([pHigh, pLow] : List Player).length ≤ 20
    ∧ List.Perm (balance_teams idShuffle [pHigh, pLow] 2 false).flatten [pHigh, pLow] :=
  ⟨isShuffle_id, by decide, by decide,
    partition_complete_of_capacity.2.2.1 idShuffle isShuffle_id [pHigh, pLow] 2 false
      (by decide) (by decide)⟩

/-- C2: every team of a partition returned by `balance_teams_with_region`
starts with a player whose region matches the constraint case-insensitively,
and the local-improvement loop of the region variant never changes any team's
first member (index 0 is excluded from the swap search). -/
theorem region_invariant_holds :
    (∀ (sh : Shuffle), IsShuffle sh → ∀ (players : List Player) (rg : String) (u : Bool),
      ∀ team ∈ balance_teams_with_region sh players rg u,
        ∃ p, team.head? = some p ∧ regionMatches p rg = true)
    ∧ (∀ (num_teams fuel : Nat) (teams : List (List Player)) (t : Nat),
        ((localOptimizeR num_teams fuel teams).getD t []).head?
          = (teams.getD t []).head?) :=
  ⟨fun _sh hsh players rg u => balance_teams_with_region_heads hsh players rg u,
   fun num_teams fuel teams t => (localOptimizeR_rel num_teams fuel teams).2 t⟩

/-- C2 witness: the region-invariant theorem applied to a concrete roster and
the required region in a different letter case. -/
theorem region_invariant_holds_witness :
    IsShuffle idShuffle
    ∧ ∀ team ∈ balance_teams_with_region idShuffle [pHigh, pLow] "na" false,
        ∃ p, team.head? = some p ∧ regionMatches p "na" = true :=
  ⟨isShuffle_id,
    region_invariant_holds.1 idShuffle isShuffle_id [pHigh, pLow] "na" false⟩

/-- C3: every team returned by any of the four generators has between 1 and 4
members; empty teams are filtered out of the final result. -/
theorem team_size_bounds :
    (∀ (sh : Shuffle), IsShuffle sh → ∀ (players : List Player) (k mi : Nat) (r : Bool),
      ∀ team ∈ generate_optimal_teams sh players k mi r,
        1 ≤ team.length ∧ team.length ≤ 4)
    ∧ (∀ (sh : Shuffle) (players : List Player) (k : Nat),
      ∀ team ∈ generate_random_teams sh players k,
        1 ≤ team.length ∧ team.length ≤ 4)
    ∧ (∀ (sh : Shuffle), IsShuffle sh → ∀ (rs os : List Player) (k : Nat) (r : Bool),
      ∀ team ∈ generate_optimal_teams_with_region sh rs os k r,
        1 ≤ team.length ∧ team.length ≤ 4)
    ∧ (∀ (sh : Shuffle) (rs os : List Player) (k : Nat),
      ∀ team ∈ generate_random_teams_with_region sh rs os k,
        1 ≤ team.length ∧ team.length ≤ 4) :=
  ⟨fun _sh hsh players k mi r => generate_optimal_teams_sizes hsh players k mi r,
   fun sh players k => generate_random_teams_sizes sh players k,
   fun _sh hsh rs os k r => generate_optimal_teams_with_region_sizes hsh rs os k r,
   fun sh rs os k => generate_random_teams_with_region_sizes sh rs os k⟩

/-- C3 witness: the size-bound theorem applied to a concrete optimized run. -/
theorem team_size_bounds_witness :
    IsShuffle idShuffle
    ∧ ∀ team ∈ generate_optimal_teams idShuffle [pHigh, pLow] 5 10000 false,
        1 ≤ team.length ∧ team.length ≤ 4 :=
  ⟨isShuffle_id, team_size_bounds.1 idShuffle isShuffle_id [pHigh, pLow] 5 10000 false⟩

/-- C4: with fewer than two players, zero requested teams, or no player of
the required region, every balancing operation returns the empty partition. -/
theorem infeasible_returns_empty :
    (∀ (sh : Shuffle) (n : Nat) (r : Bool), balance_teams sh [] n r = [])
    ∧ (∀ (sh : Shuffle) (p1 : Player) (n : Nat) (r : Bool), balance_teams sh [p1] n r = [])
    ∧ (∀ (sh : Shuffle) (players : List Player) (rg : String) (u : Bool),
        players.filter (fun p => regionMatches p rg) = [] →
        balance_teams_with_region sh players rg u = [])
    ∧ (∀ (sh : Shuffle) (players : List Player) (k mi : Nat) (r : Bool),
        players.length < 2 ∨ k < 1 → generate_optimal_teams sh players k mi r = [])
    ∧ (∀ (sh : Shuffle) (players : List Player) (k : Nat),
        players.length < 2 ∨ k < 1 → generate_random_teams sh players k = []) := by
  refine ⟨?_, ?_, ?_, ?_, ?_⟩
  · intro sh n r
    exact balance_teams_lt_two sh [] n r (by simp)
  · intro sh p1 n r
    exact balance_teams_lt_two sh [p1] n r (by simp)
  · intro sh players rg u hne
    exact balance_teams_with_region_empty sh players rg u hne
  · intro sh players k mi r hg
    exact generate_optimal_teams_guard sh players k mi r hg
  · intro sh players k hg
    exact generate_random_teams_guard sh players k hg

/-- C4 witness: a one-player roster and a region nobody has both yield the
empty partition. -/
theorem infeasible_returns_empty_witness :
    ([pHigh] : List Player).filter (fun p => regionMatches p "zz") = []
    ∧ balance_teams idShuffle [pHigh] 2 false = []
    ∧ balance_teams_with_region idShuffle [pHigh] "zz" false = [] := by
  have hfz : ([pHigh] : List Player).filter (fun p => regionMatches p "zz") = [] := by
    decide
  exact ⟨hfz,
    infeasible_returns_empty.2.1 idShuffle pHigh 2 false,
    infeasible_returns_empty.2.2.1 idShuffle [pHigh] "zz" false hfz⟩

/-- C5: a tentative swap of `teams[i][p]` and `teams[j][q]` is kept exactly
when it strictly reduces the current variance; otherwise the double swap
restores the original state unchanged. -/
theorem swap_acceptance_rule (st : SweepState) (i j p q : Nat) :
    (calculate_variance (swapPlayers st.teams i j p q) < st.current_variance →
      trySwap st i j p q
        = { teams := swapPlayers st.teams i j p q
            current_variance := calculate_variance (swapPlayers st.teams i j p q)
            improved := true })
    ∧ (¬ calculate_variance (swapPlayers st.teams i j p q) < st.current_variance →
      i ≠ j → i < st.teams.length → j < st.teams.length →
      p < (st.teams.getD i []).length → q < (st.teams.getD j []).length →
      trySwap st i j p q = st) := by
  constructor
  · intro hlt
    simp only [trySwap]
    rw [if_pos hlt]
  · intro hge hij hi hj hp hq
    simp only [trySwap]
    rw [if_neg hge, swapPlayers_involution st.teams hij hi hj hp hq]

/-- C5 witness: starting from variance `⊤`, the first tentative swap strictly
improves and is therefore kept together with its variance. -/
theorem swap_acceptance_rule_witness :
    calculate_variance (swapPlayers [[pHigh], [pLow]] 0 1 0 0) < (⊤ : WithTop ℚ)
    ∧ trySwap { teams := [[pHigh], [pLow]], current_variance := ⊤, improved := false } 0 1 0 0
        = { teams := swapPlayers [[pHigh], [pLow]] 0 1 0 0
            current_variance := calculate_variance (swapPlayers [[pHigh], [pLow]] 0 1 0 0)
            improved := true } := by
  have hne : swapPlayers [[pHigh], [pLow]] 0 1 0 0 ≠ [] := by
    rw [show swapPlayers [[pHigh], [pLow]] 0 1 0 0 = [[pLow], [pHigh]] from rfl]
    exact List.cons_ne_nil _ _
  have hlt := calculate_variance_lt_top hne
  exact ⟨hlt,
    (swap_acceptance_rule
      { teams := [[pHigh], [pLow]], current_variance := ⊤, improved := false } 0 1 0 0).1 hlt⟩

/-- C6: the returned partition's variance can exceed the first attempt's
final variance — with two players and five requested teams every attempt
scores 40, but dropping the three empty teams raises the returned
partition's variance to 100. -/
theorem returned_variance_exceeds_first_attempt :
    ¬ calculate_variance (generate_optimal_teams idShuffle [pHigh, pLow] 5 10000 false)
      ≤ calculate_variance
          ((attemptBody idShuffle (sortBySkill [pHigh, pLow]) 5 2 false 0 0).1) := by
  rw [generate_optimal_pair, attemptBody_pair 0 0, var_teams2, var_teams5]
  intro h
  exact absurd (WithTop.coe_le_coe.mp h) (by norm_num)

/-- C6 (amended): the best recorded variance is non-increasing across
attempts and ties keep the earliest attempt's partition; the returned
partition is the best recorded partition with its empty teams removed, and
the best recorded variance (not the returned partition's variance) is at
most the first attempt's final variance, in both the plain and the region
variant. -/
theorem monotonic_improvement_amended :
    (∀ (body : Nat → Nat → List (List Player) × Nat) (l : List Nat)
        (st : (Option (List (List Player)) × WithTop ℚ) × Nat),
      (l.foldl (bestStep body) st).1.2 ≤ st.1.2)
    ∧ (∀ (body : Nat → Nat → List (List Player) × Nat)
        (st : (Option (List (List Player)) × WithTop ℚ) × Nat) (a : Nat),
      ¬ calculate_variance (body a st.2).1 < st.1.2 → (bestStep body st a).1 = st.1)
    ∧ (∀ (sh : Shuffle), IsShuffle sh → ∀ (players : List Player) (k mi : Nat) (r : Bool),
      2 ≤ players.length → 1 ≤ k → 1 ≤ mi →
      ∃ bt, generate_optimal_teams sh players k mi r
          = bt.filter (fun team => !team.isEmpty)
        ∧ calculate_variance bt
          ≤ calculate_variance (attemptBody sh (sortBySkill players) k
              players.length r 0 0).1)
    ∧ (∀ (sh : Shuffle), IsShuffle sh → ∀ (rs os : List Player) (k : Nat) (r : Bool),
      1 ≤ k → k ≤ rs.length →
      ∃ bt, generate_optimal_teams_with_region sh rs os k r
          = bt.filter (fun team => !team.isEmpty)
        ∧ calculate_variance bt
          ≤ calculate_variance (attemptBodyR sh (sortBySkill rs) (sortBySkill os)
              k r 0 0).1) :=
  ⟨fun body l st => foldl_bestStep_var_le body l st,
   fun body st a hge => bestStep_keeps_on_tie body st a hge,
   fun _sh hsh players _k _mi r h2 hk hmi =>
     generate_optimal_teams_best_le_first hsh players r h2 hk hmi,
   fun _sh hsh rs os _k r hk hkr =>
     generate_optimal_teams_with_region_best_le_first hsh rs os r hk hkr⟩

/-- C6 witness: the amended theorem applied to the two-player, five-team
run. -/
theorem monotonic_improvement_amended_witness :
    IsShuffle idShuffle
    ∧ ∃ bt, generate_optimal_teams idShuffle [pHigh, pLow] 5 10000 false
        = bt.filter (fun team => !team.isEmpty)
      ∧ calculate_variance bt
        ≤ calculate_variance (attemptBody idShuffle (sortBySkill [pHigh, pLow]) 5
            ([pHigh, pLow] : List Player).length false 0 0).1 :=
  ⟨isShuffle_id,
    monotonic_improvement_amended.2.2.1 idShuffle isShuffle_id [pHigh, pLow] 5 10000
      false (by decide) (by decide) (by decide)⟩

/-- C7: the planner is deterministic, but 6 players give 2 teams — the
claim's value `planTeamCount(6) == 3` contradicts its own `≤ 8 → 2`
bucketing. -/
theorem planner_six_players_two_teams :
    calculate_optimal_teams 6 = 2 ∧ calculate_optimal_teams 6 ≠ 3 := by
  decide

/-- C7 (amended): `calculate_optimal_teams` buckets `≤3 → 1`, `≤8 → 2`,
`≤12 → 3`, `≤16 → 4`, `else 5` (so 6 players give 2 teams, not 3), and the
result always lies between 1 and 5. -/
theorem planner_bucketing :
    calculate_optimal_teams 6 = 2
    ∧ calculate_optimal_teams 8 = 2
    ∧ calculate_optimal_teams 12 = 3
    ∧ calculate_optimal_teams 16 = 4
    ∧ calculate_optimal_teams 20 = 5
    ∧ (∀ n, 1 ≤ calculate_optimal_teams n ∧ calculate_optimal_teams n ≤ 5)
    ∧ (∀ n, n ≤ 3 → calculate_optimal_teams n = 1)
    ∧ (∀ n, 3 < n → n ≤ 8 → calculate_optimal_teams n = 2)
    ∧ (∀ n, 8 < n → n ≤ 12 → calculate_optimal_teams n = 3)
    ∧ (∀ n, 12 < n → n ≤ 16 → calculate_optimal_teams n = 4)
    ∧ (∀ n, 16 < n → calculate_optimal_teams n = 5) := by
  refine ⟨by decide, by decide, by decide, by decide, by decide,
    fun n => ⟨one_le_calculate_optimal_teams n, calculate_optimal_teams_le n⟩,
    ?_, ?_, ?_, ?_, ?_⟩
  all_goals
    intro n
    unfold calculate_optimal_teams
    intros
    split_ifs <;> omega

/-- C7 witness: four players fall in the second bucket. -/
theorem planner_bucketing_witness :
    3 < 4 ∧ 4 ≤ 8 ∧ calculate_optimal_teams 4 = 2 :=
  ⟨by decide, by decide, planner_bucketing.2.2.2.2.2.2.2.1 4 (by decide) (by decide)⟩

/-- C8: `get_player_skill` is `μ - 3σ`; `calculate_team_average` is the mean
of the members' conservative skills and `0` on an empty team;
`calculate_variance` is the population variance of the per-team averages and
`⊤` on an empty partition — equivalently, for a nonempty partition of `k`
teams with averages `a₁…a_k`, it is the rational `v` with
`k²·v = k·Σaᵢ² - (Σaᵢ)²`. -/
theorem evaluator_definitions :
    (∀ p : Player, get_player_skill p = p.mu - 3 * p.sigma)
    ∧ calculate_team_average [] = 0
    ∧ (∀ team : List Player, team ≠ [] →
        calculate_team_average team
          = (team.map get_player_skill).sum / (team.length : ℚ))
    ∧ calculate_variance [] = ⊤
    ∧ (∀ teams : List (List Player), teams ≠ [] →
        calculate_variance teams
          = ((((teams.map calculate_team_average).map
                (fun avg => (avg - (teams.map calculate_team_average).sum
                  / (teams.length : ℚ)) ^ 2)).sum
              / (teams.length : ℚ) : ℚ) : WithTop ℚ))
    ∧ (∀ teams : List (List Player), teams ≠ [] →
        ∃ v : ℚ, calculate_variance teams = (v : WithTop ℚ)
          ∧ ((teams.length : ℚ)) ^ 2 * v
            = (teams.length : ℚ)
                * ((teams.map calculate_team_average).map (fun a => a ^ 2)).sum
              - ((teams.map calculate_team_average).sum) ^ 2) := by
  refine ⟨fun p => rfl, rfl, ?_, rfl, ?_, ?_⟩
  · intro team h
    unfold calculate_team_average
    rw [if_neg (by simpa using h)]
  · intro teams h
    unfold calculate_variance
    rw [if_neg (by simpa using h)]
    simp only [List.length_map]
  · intro teams h
    refine ⟨((teams.map calculate_team_average).map
        (fun avg => (avg - (teams.map calculate_team_average).sum
          / (teams.length : ℚ)) ^ 2)).sum / (teams.length : ℚ), ?_, ?_⟩
    · unfold calculate_variance
      rw [if_neg (by simpa using h)]
      simp only [List.length_map]
    · have hl : teams.map calculate_team_average ≠ [] := by
        simpa using h
      have hid := variance_identity (teams.map calculate_team_average) hl
      simp only [List.length_map] at hid
      exact hid

/-- C8 witness: the team-average equation applied to a one-player team. -/
theorem evaluator_definitions_witness :
    ([pHigh] : List Player) ≠ []
    ∧ calculate_team_average [pHigh]
        = (([pHigh] : List Player).map get_player_skill).sum
          / (([pHigh] : List Player).length : ℚ) :=
  ⟨List.cons_ne_nil _ _, evaluator_definitions.2.2.1 [pHigh] (List.cons_ne_nil _ _)⟩

/-- C9: every player of every returned team is a member of the input roster;
in this purely functional model the input list itself is never modified, so
the returned teams hold exactly the caller's unchanged `Player` records. -/
theorem frame_players_preserved :
    (∀ (sh : Shuffle), IsShuffle sh → ∀ (players : List Player) (k mi : Nat) (r : Bool),
      ∀ team ∈ generate_optimal_teams sh players k mi r, ∀ p ∈ team, p ∈ players)
    ∧ (∀ (sh : Shuffle), IsShuffle sh → ∀ (players : List Player) (k : Nat),
      ∀ team ∈ generate_random_teams sh players k, ∀ p ∈ team, p ∈ players)
    ∧ (∀ (sh : Shuffle), IsShuffle sh → ∀ (players : List Player) (n : Nat) (r : Bool),
      ∀ team ∈ balance_teams sh players n r, ∀ p ∈ team, p ∈ players)
    ∧ (∀ (sh : Shuffle), IsShuffle sh → ∀ (players : List Player) (rg : String) (u : Bool),
      ∀ team ∈ balance_teams_with_region sh players rg u, ∀ p ∈ team, p ∈ players) :=
  ⟨fun _sh hsh players k mi r => generate_optimal_teams_mem hsh players k mi r,
   fun _sh hsh players k => generate_random_teams_mem hsh players k,
   fun _sh hsh players n r => balance_teams_mem hsh players n r,
   fun _sh hsh players rg u => balance_teams_with_region_mem hsh players rg u⟩

/-- C9 witness: the frame theorem applied to a concrete `balance_teams`
call. -/
theorem frame_players_preserved_witness :
    IsShuffle idShuffle
    ∧ ∀ team ∈ balance_teams idShuffle [pHigh, pLow] 2 false,
        ∀ p ∈ team, p ∈ ([pHigh, pLow] : List Player) :=
  ⟨isShuffle_id,
    frame_players_preserved.2.2.1 idShuffle isShuffle_id [pHigh, pLow] 2 false⟩

/-- C10: `balance_teams` never reads its `num_teams` parameter — any two
values give definitionally the same computation. -/
theorem num_teams_noninterference (sh : Shuffle) (players : List Player)
    (a b : Nat) (r : Bool) :
    balance_teams sh players a r = balance_teams sh players b r := rfl

end TeamBalancer
